import Mathlib

/-!
# Formal model of the grind-size-calculator core

A shallow embedding (in Lean 4, over `ℚ`) of the conversion and scheduling
engine of the repository:

* `src/lib/coffee-utils.ts` — grind-category classification, micron-to-setting
  interpolation (`mapMicronsToSetting`), and the catalog query (`queryMicrons`);
* the unnamed NextJS utility file (`unnamed/part_000`) — a near-duplicate of
  the above with a grinder-range validation step and a different complex
  click-equivalent formula;
* `src/lib/recipe-utils.ts` — time formatting/parsing, custom-recipe step
  generation (legacy and basic modes), and water-weight rescaling.

Modelling conventions:

* JavaScript `number` is modelled by `ℚ` (the values the claims quantify over
  are exactly representable in IEEE doubles, and every arithmetic step used by
  the code — addition, subtraction, multiplication by small constants,
  `Math.round`, `Math.floor`, `%` — is exact on them; division is exact as a
  rational and the code rounds its results to integers immediately).
* `Math.round x` is `⌊x + 1/2⌋` (halves away from zero toward +∞, as in JS);
  `Math.floor` is `Int.floor`; the JS remainder `%` truncates toward zero.
* The JS union `string | number` for settings becomes the tagged type
  `JsValue`.  `parseInt` is modelled on strings (longest digit prefix after an
  optional sign, `none` for NaN); arithmetic that would be poisoned by NaN is
  modelled by `Option`, with `none` standing for a NaN-valued outcome.
* Presentation-only data (uuids, instruction strings, `targetTime` display
  strings, water-temperature text, recipe names) is omitted from the records;
  no modelled computation reads it back.
-/

/-! ## JS numeric primitives -/

/-- JS `Math.round`: round half toward +∞. -/

def jsRound (x : ℚ) : ℤ := ⌊x + 1/2⌋

/-- JS `Math.floor` on a finite double. -/

def jsFloorQ (x : ℚ) : ℤ := ⌊x⌋

/-- Truncation toward zero, as used by the JS `%` operator. -/

def jsTrunc (x : ℚ) : ℤ := if 0 ≤ x then ⌊x⌋ else ⌈x⌉

/-- JS remainder `a % b` (sign of the dividend).  For `b = 0` JS yields NaN;
this model returns `a` there, a case no modelled claim exercises. -/

def jsModQ (a b : ℚ) : ℚ := a - b * (jsTrunc (a / b) : ℚ)

/-- JS `x || d` on an optional number: `undefined`, `null` and `0` are falsy. -/

def jsOrQ (o : Option ℚ) (d : ℚ) : ℚ :=
  match o with
  | some v => if v = 0 then d else v
  | none => d

def digitsValFold (acc : ℕ) : List Char → ℕ
  | [] => acc
  | c :: cs => digitsValFold (10 * acc + (c.toNat - 48)) cs

/-- Fuel-driven digit emitter (structural recursion so that the kernel can
evaluate it): prepends the decimal digits of `n` to `acc`. -/

def natToCharsAux : ℕ → ℕ → List Char → List Char
  | 0, _, acc => acc
  | fuel + 1, n, acc =>
    match n with
    | 0 => acc
    | m + 1 => natToCharsAux fuel ((m + 1) / 10) (Nat.digitChar ((m + 1) % 10) :: acc)

/-- Decimal rendering of a natural number (`String(n)` in JS, as a char list). -/

def natToChars (n : ℕ) : List Char :=
  if n = 0 then ['0'] else natToCharsAux n n []

/-- Decimal rendering of an integer (`String(z)` in JS, as a char list). -/

def intToChars (z : ℤ) : List Char :=
  if z < 0 then '-' :: natToChars z.natAbs else natToChars z.natAbs

def splitConsHead (c : Char) : List (List Char) → List (List Char)
  | [] => [[c]]
  | h :: t => (c :: h) :: t

/-- JS `String.prototype.split` with a single-character separator, on char
lists: `"a.b".split "."` is `["a", "b"]`, `"".split "."` is `[""]`. -/

def splitOnChar (sep : Char) : List Char → List (List Char)
  | [] => [[]]
  | c :: rest =>
    if c = sep then [] :: splitOnChar sep rest
    else splitConsHead c (splitOnChar sep rest)

def leadDigitsVal (cs : List Char) : Option ℕ :=
  let ds := cs.takeWhile Char.isDigit
  if ds = [] then none else some (digitsValFold 0 ds)

/-- JS `parseInt(s)` (radix 10): optional sign, then the longest digit run;
`none` models NaN.  (Leading whitespace, hex prefixes and similar cases that
never occur in the modelled data are not handled.) -/

def jsParseInt (cs : List Char) : Option ℤ :=
  match cs with
  | [] => none
  | c :: rest =>
    if c = '-' then (leadDigitsVal rest).map (fun n => -(n : ℤ))
    else if c = '+' then (leadDigitsVal rest).map (fun n => (n : ℤ))
    else (leadDigitsVal (c :: rest)).map (fun n => (n : ℤ))

/-- JS `Number(s)` restricted to nonempty all-digit strings, the only shape
the modelled claims feed it; anything else is `none` (NaN). -/

def jsStrToNat (cs : List Char) : Option ℕ :=
  if cs = [] then none
  else if cs.all Char.isDigit then some (digitsValFold 0 cs) else none

/-! ## Catalog data model (`@/types/coffee` and the copy in `unnamed/part_000`) -/

/-- The seven particle-size bands, in the catalog's declaration order. -/
inductive GrindCategory
  | extraFine
  | fine
  | mediumFine
  | medium
  | mediumCoarse
  | coarse
  | extraCoarse
deriving DecidableEq

inductive SettingFormat
  | simple
  | complex
deriving DecidableEq

/-- The JS union `string | number` used for grinder settings (strings are
carried as char lists). -/
inductive JsValue
  | num (q : ℚ)
  | str (s : List Char)
deriving DecidableEq

/-- Decimal rendering of a JS number.  Exact for integers (the only numbers
any modelled code path stringifies); for a non-integral rational the marker
rendering below diverges from JS's decimal expansion and is never produced
by a claim. -/
def qChars (q : ℚ) : List Char :=
  if q.den = 1 then intToChars q.num else intToChars q.num ++ '?' :: natToChars q.den

/-- JS `String(v)` on a setting value. -/
def jsValueToChars : JsValue → List Char
  | .str s => s
  | .num q => qChars q

/-- `GRIND_CATEGORY_RANGES`, in `Object.entries` (insertion) order. -/
def GRIND_CATEGORY_RANGES : List (GrindCategory × ℚ × ℚ) :=
  [(.extraFine, 0, 200), (.fine, 200, 400), (.mediumFine, 400, 600),
   (.medium, 600, 800), (.mediumCoarse, 800, 1000), (.coarse, 1000, 1200),
   (.extraCoarse, 1200, 1400)]

/-- `getGrindCategory` (identical in `coffee-utils.ts` and `unnamed/part_000`):
first category whose `[min, max)` band contains the value, else the clamped
boundary category. -/
def getGrindCategory (microns : ℚ) : GrindCategory :=
  match GRIND_CATEGORY_RANGES.find? (fun e => decide (e.2.1 ≤ microns) && decide (microns < e.2.2)) with
  | some e => e.1
  | none => if microns < 0 then .extraFine else .extraCoarse

/-- `typeof s === 'string' ? parseInt(s) : s` on a setting (NaN as `none`). -/
def settingToNum : JsValue → Option ℚ
  | .num q => some q
  | .str s => (jsParseInt s).map (fun z => (z : ℚ))

/-- JS `ToNumber` as used by a `<` comparison against a stored setting
(`none` = NaN, which makes the comparison false). -/
def jsNumOf : JsValue → Option ℚ
  | .num q => some q
  | .str s => (jsStrToNat s).map (fun n => (n : ℚ))

/-- JS `a < b` between setting values (false when either side is NaN). -/
def jsLtB (a b : JsValue) : Bool :=
  match jsNumOf a, jsNumOf b with
  | some x, some y => decide (x < y)
  | _, _ => false

/-- `needle` is a prefix of the second list. -/
def beginsWith : List Char → List Char → Bool
  | [], _ => true
  | _ :: _, [] => false
  | a :: as, b :: bs => a == b && beginsWith as bs

/-- JS `hay.includes(needle)` (substring containment), needle first. -/
def containsSub (needle : List Char) : List Char → Bool
  | [] => needle.isEmpty
  | c :: t => beginsWith needle (c :: t) || containsSub needle t

def toLowerL (cs : List Char) : List Char := cs.map Char.toLower

/-- JS `hay.toLowerCase().includes(needle.toLowerCase())`. -/
def lowerIncludes (hay needle : List Char) : Bool :=
  containsSub (toLowerL needle) (toLowerL hay)

/-- JS truthiness of an optional string (`null` and `""` are falsy). -/
def isTruthyS : Option (List Char) → Bool
  | some s => !s.isEmpty
  | none => false

structure BrewMethod where
  id : ℤ
  grinder_id : ℤ
  method_name : List Char
  start_microns : Option ℚ
  end_microns : Option ℚ
  start_setting : Option (List Char)
  end_setting : Option (List Char)
  setting_format : SettingFormat
  grind_category : Option GrindCategory
deriving DecidableEq

/-- Grinder record.  `unnamed/part_000`'s local interface omits
`clicks_per_number` and never reads it; the richer shape from
`@/types/coffee` is used for both embeddings. -/
structure Grinder where
  id : ℤ
  name : List Char
  min_microns : Option ℚ
  max_microns : Option ℚ
  clicks_per_number : ℚ
  brew_methods : List BrewMethod
deriving DecidableEq

structure CoffeeData where
  grinders : List Grinder
deriving DecidableEq

structure QueryParams where
  grinderName : List Char
  targetMicrons : ℚ
  brewMethod : Option (List Char)
deriving DecidableEq

/-- A brew method annotated with its `fit_score` (the JS spread
`{...method, fit_score}`). -/
structure ScoredBrewMethod where
  method : BrewMethod
  fit_score : ℚ
deriving DecidableEq

structure QueryResult where
  grinder : Grinder
  target_microns : ℚ
  calculated_setting : Option JsValue
  setting_format : SettingFormat
  grind_category : GrindCategory
  matching_methods : List ScoredBrewMethod
deriving DecidableEq

/-- The two `throw new Error(...)` sites of the query paths, by content. -/
inductive QueryError
  | notFound (query : List Char)
  | outOfRange (target mn mx : ℚ)
deriving DecidableEq

/-- The brew-method filter predicate shared by both query paths. -/
def methodMatches (brewMethod : Option (List Char)) (targetMicrons : ℚ) (m : BrewMethod) : Bool :=
  if (match brewMethod with
      | some bm => !bm.isEmpty && !(lowerIncludes m.method_name bm)
      | none => false)
  then false
  else
    match m.start_microns, m.end_microns with
    | some s, some e => decide (s ≤ targetMicrons) && decide (targetMicrons ≤ e)
    | _, _ => false

/-- Insert `x` after every element `y` with `le y x` (stable insertion). -/
def insertLe {α : Type} (le : α → α → Bool) (x : α) : List α → List α
  | [] => [x]
  | y :: ys => if le y x then y :: insertLe le x ys else x :: y :: ys

/-- Stable sort, modelling the (stable) JS `Array.prototype.sort`. -/
def stableInsertionSort {α : Type} (le : α → α → Bool) (l : List α) : List α :=
  l.foldl (fun acc x => insertLe le x acc) []

/-- The fit-score map of both query paths: centering distance plus the v60 /
espresso bonuses. -/
def scoreMethod (targetMicrons : ℚ) (m : BrewMethod) : ScoredBrewMethod :=
  let methodMin := m.start_microns.getD 0
  let methodMax := m.end_microns.getD 0
  let methodRange := methodMax - methodMin
  let methodMid := methodMin + methodRange / 2
  let fitScore := |targetMicrons - methodMid| / methodRange
  let lname := toLowerL m.method_name
  let fitScore :=
    if containsSub ("v60".data) lname && decide (450 ≤ targetMicrons) && decide (targetMicrons ≤ 550) then
      fitScore - 3/10
    else if containsSub ("espresso".data) lname && decide (200 ≤ targetMicrons) && decide (targetMicrons ≤ 300) then
      fitScore - 3/10
    else fitScore
  ⟨m, fitScore⟩

/-- A `STANDARD_BREW_METHODS` record entry. -/
structure StandardMethod where
  key : List Char
  name : List Char
  min_microns : ℚ
  max_microns : ℚ
  grind_category : GrindCategory
deriving DecidableEq

/-- The synthetic brew method pushed by the standard-method fallback. -/
def syntheticMethod (grinderId : ℤ) (fmt : SettingFormat) (e : StandardMethod) : BrewMethod :=
  { id := -1, grinder_id := grinderId, method_name := e.name,
    start_microns := some e.min_microns, end_microns := some e.max_microns,
    start_setting := none, end_setting := none,
    setting_format := fmt, grind_category := some e.grind_category }

/-- The standard-method fallback loop shared by both query paths (they differ
only in the constant table). -/
def standardFallback (table : List StandardMethod) (brewMethod : Option (List Char))
    (targetMicrons : ℚ) (grinderId : ℤ) (fmt : SettingFormat) : List BrewMethod :=
  table.foldl
    (fun acc e =>
      if decide (e.min_microns ≤ targetMicrons) && decide (targetMicrons ≤ e.max_microns)
          && (match brewMethod with
              | some bm => bm.isEmpty || containsSub (toLowerL bm) e.key
              | none => true) then
        acc ++ [syntheticMethod grinderId fmt e]
      else acc)
    []

namespace CoffeeUtils

/-- `STANDARD_BREW_METHODS` of `src/lib/coffee-utils.ts`, in insertion order. -/
def STANDARD_BREW_METHODS : List StandardMethod :=
  [⟨"turkish".data, "Turkish".data, 40, 220, .extraFine⟩,
   ⟨"espresso".data, "Espresso".data, 180, 380, .fine⟩,
   ⟨"aeropress".data, "Aeropress".data, 320, 960, .mediumFine⟩,
   ⟨"pourover".data, "Pour Over".data, 400, 800, .medium⟩,
   ⟨"frenchpress".data, "French Press".data, 800, 1200, .coarse⟩,
   ⟨"coldbrew".data, "Cold Brew".data, 800, 1600, .coarse⟩]

/-- The inner `parseComplexSetting` of `mapMicronsToSetting`
(`src/lib/coffee-utils.ts`): `(rotations, numbers, clicks, numValue)` with
`numValue = rotations·10·clicksPerNumber + numbers·clicksPerNumber + clicks`
for the 3-part form and `rotations·10·clicksPerNumber + clicks` for the
2-part form; any other part count yields `[0,0,0,0]`; a NaN component
(unparseable part) poisons the result (`none`). -/
def parseComplexSetting (clicksPerNumber : ℚ) (v : JsValue) : Option (ℤ × ℤ × ℤ × ℚ) :=
  match splitOnChar '.' (jsValueToChars v) with
  | [p0, p1, p2] =>
    match jsParseInt p0, jsParseInt p1, jsParseInt p2 with
    | some r, some n, some c =>
      some (r, n, c, (r : ℚ) * 10 * clicksPerNumber + (n : ℚ) * clicksPerNumber + (c : ℚ))
    | _, _, _ => none
  | [p0, p1] =>
    match jsParseInt p0, jsParseInt p1 with
    | some r, some c => some (r, 0, c, (r : ℚ) * 10 * clicksPerNumber + (c : ℚ))
    | _, _ => none
  | _ => some (0, 0, 0, 0)

/-- `mapMicronsToSetting` of `src/lib/coffee-utils.ts`: clamp to the verbatim
boundary settings, then linear interpolation (`none` models both the `null`
returns and a NaN-poisoned result). -/
def mapMicronsToSetting (microns : ℚ) (minSetting maxSetting : JsValue)
    (minMicrons maxMicrons : ℚ) (settingFormat : SettingFormat)
    (clicksPerNumber : ℚ) : Option JsValue :=
  if microns ≤ minMicrons then some minSetting
  else if maxMicrons ≤ microns then some maxSetting
  else
    let micronRange := maxMicrons - minMicrons
    if micronRange ≤ 0 then none
    else
      let ratio := (microns - minMicrons) / micronRange
      match settingFormat with
      | .simple =>
        match settingToNum minSetting, settingToNum maxSetting with
        | some minSettingNum, some maxSettingNum =>
          some (.num ((jsRound (minSettingNum + ratio * (maxSettingNum - minSettingNum)) : ℤ) : ℚ))
        | _, _ => none
      | .complex =>
        match parseComplexSetting clicksPerNumber minSetting,
              parseComplexSetting clicksPerNumber maxSetting with
        | some (_, _, _, minValue), some (_, _, _, maxValue) =>
          let targetValue : ℤ := jsRound (minValue + ratio * (maxValue - minValue))
          let minParts := splitOnChar '.' (jsValueToChars minSetting)
          if minParts.length = 3 then
            let rotations := jsFloorQ ((targetValue : ℚ) / (10 * clicksPerNumber))
            let remainingClicks := jsModQ (targetValue : ℚ) (10 * clicksPerNumber)
            let numbers := jsFloorQ (remainingClicks / clicksPerNumber)
            let clicks := jsModQ remainingClicks clicksPerNumber
            some (.str (intToChars rotations ++ '.' :: intToChars numbers ++ '.' :: qChars clicks))
          else if minParts.length = 2 then
            let rotations := jsFloorQ ((targetValue : ℚ) / (10 * clicksPerNumber))
            let clicks := jsModQ (targetValue : ℚ) (10 * clicksPerNumber)
            some (.str (intToChars rotations ++ '.' :: qChars clicks))
          else none
        | _, _ => none

/-- State of the min/max-setting scan over a grinder's brew methods. -/
structure ScanState where
  minSetting : Option JsValue
  maxSetting : Option JsValue
  settingFormat : SettingFormat
  minMicrons : Option ℚ
  maxMicrons : Option ℚ
deriving DecidableEq

/-- One iteration of the extreme-settings loop of `queryMicrons`
(`src/lib/coffee-utils.ts`).  A NaN `parseInt` result is modelled as skipping
the update (JS would store NaN; no modelled catalog contains an unparseable
simple setting). -/
def scanStep (st : ScanState) (m : BrewMethod) : ScanState :=
  match m.start_setting, m.end_setting, m.start_microns, m.end_microns with
  | some ss, some es, some sm, some em =>
    if ss.isEmpty || es.isEmpty then st
    else
      match m.setting_format with
      | .simple =>
        match jsParseInt ss, jsParseInt es with
        | some startVal, some endVal =>
          let updMin :=
            match st.minSetting with
            | none => true
            | some cur => jsLtB (.num (startVal : ℚ)) cur
          let st1 :=
            if updMin then
              { st with minSetting := some (.num (startVal : ℚ)), minMicrons := some sm }
            else st
          let updMax :=
            match st1.maxSetting with
            | none => true
            | some cur => jsLtB cur (.num (endVal : ℚ))
          if updMax then
            { st1 with maxSetting := some (.num (endVal : ℚ)), maxMicrons := some em }
          else st1
        | _, _ => st
      | .complex =>
        let st1 := { st with settingFormat := SettingFormat.complex }
        let st2 :=
          if st1.minSetting.isNone then
            { st1 with minSetting := some (.str ss), minMicrons := some sm }
          else st1
        if st2.maxSetting.isNone then
          { st2 with maxSetting := some (.str es), maxMicrons := some em }
        else st2
  | _, _, _, _ => st

/-- Body of `queryMicrons` (`src/lib/coffee-utils.ts`) after the grinder has
been found.  No range validation of the target happens on this path. -/
def queryCore (grinder : Grinder) (params : QueryParams) : QueryResult :=
  let matching0 := grinder.brew_methods.filter (methodMatches params.brewMethod params.targetMicrons)
  let st0 : ScanState := ⟨none, none, .simple, none, none⟩
  let st :=
    match matching0 with
    | m :: _ =>
      if isTruthyS m.start_setting && isTruthyS m.end_setting
          && m.start_microns.isSome && m.end_microns.isSome then
        { st0 with
          minSetting := m.start_setting.map JsValue.str,
          maxSetting := m.end_setting.map JsValue.str,
          settingFormat := m.setting_format,
          minMicrons := m.start_microns,
          maxMicrons := m.end_microns }
      else st0
    | [] => grinder.brew_methods.foldl scanStep st0
  let matching1 :=
    match matching0 with
    | [] => standardFallback STANDARD_BREW_METHODS params.brewMethod params.targetMicrons
              grinder.id st.settingFormat
    | _ => matching0
  let scored := matching1.map (scoreMethod params.targetMicrons)
  let sorted := stableInsertionSort (fun a b => decide (a.fit_score ≤ b.fit_score)) scored
  let calcSetting :=
    match st.minSetting, st.maxSetting, st.minMicrons, st.maxMicrons with
    | some mnS, some mxS, some mnM, some mxM =>
      mapMicronsToSetting params.targetMicrons mnS mxS mnM mxM st.settingFormat
        grinder.clicks_per_number
    | _, _, _, _ => none
  { grinder := grinder, target_microns := params.targetMicrons,
    calculated_setting := calcSetting, setting_format := st.settingFormat,
    grind_category := getGrindCategory params.targetMicrons,
    matching_methods := sorted }

/-- `queryMicrons` of `src/lib/coffee-utils.ts` (the already-parsed catalog is
passed explicitly in place of the module-level cache). -/
def queryMicrons (data : CoffeeData) (params : QueryParams) : Except QueryError QueryResult :=
  match data.grinders.find? (fun g => lowerIncludes g.name params.grinderName) with
  | none => Except.error (QueryError.notFound params.grinderName)
  | some grinder => Except.ok (queryCore grinder params)

end CoffeeUtils

namespace Part000

/-- The two-entry placeholder `STANDARD_BREW_METHODS` of `unnamed/part_000`. -/
def STANDARD_BREW_METHODS : List StandardMethod :=
  [⟨"turkish".data, "Turkish".data, 40, 220, .extraFine⟩,
   ⟨"espresso".data, "Espresso".data, 180, 380, .fine⟩]

/-- The inner `parseComplexSetting` of `unnamed/part_000`: fixed positional
weights (`rotations·100 + numbers·10 + clicks`, `rotations·10 + clicks`). -/
def parseComplexSetting (v : JsValue) : Option (ℤ × ℤ × ℤ × ℚ) :=
  match splitOnChar '.' (jsValueToChars v) with
  | [p0, p1, p2] =>
    match jsParseInt p0, jsParseInt p1, jsParseInt p2 with
    | some r, some n, some c => some (r, n, c, ((r * 100 + n * 10 + c : ℤ) : ℚ))
    | _, _, _ => none
  | [p0, p1] =>
    match jsParseInt p0, jsParseInt p1 with
    | some r, some c => some (r, 0, c, ((r * 10 + c : ℤ) : ℚ))
    | _, _ => none
  | _ => some (0, 0, 0, 0)

/-- `mapMicronsToSetting` of `unnamed/part_000`: no clamp — the degenerate
range is checked first and yields `null`. -/
def mapMicronsToSetting (microns : ℚ) (minSetting maxSetting : JsValue)
    (minMicrons maxMicrons : ℚ) (settingFormat : SettingFormat) : Option JsValue :=
  let micronRange := maxMicrons - minMicrons
  if micronRange ≤ 0 then none
  else
    let ratio := (microns - minMicrons) / micronRange
    match settingFormat with
    | .simple =>
      match settingToNum minSetting, settingToNum maxSetting with
      | some minSettingNum, some maxSettingNum =>
        some (.num ((jsRound (minSettingNum + ratio * (maxSettingNum - minSettingNum)) : ℤ) : ℚ))
      | _, _ => none
    | .complex =>
      match parseComplexSetting minSetting, parseComplexSetting maxSetting with
      | some (_, _, _, minValue), some (_, _, _, maxValue) =>
        let targetValue : ℤ := jsRound (minValue + ratio * (maxValue - minValue))
        let minParts := splitOnChar '.' (jsValueToChars minSetting)
        if minParts.length = 3 then
          some (.str (intToChars (jsFloorQ ((targetValue : ℚ) / 100))
            ++ '.' :: intToChars (jsFloorQ (jsModQ (targetValue : ℚ) 100 / 10))
            ++ '.' :: qChars (jsModQ (targetValue : ℚ) 10)))
        else if minParts.length = 2 then
          some (.str (intToChars (jsFloorQ ((targetValue : ℚ) / 10))
            ++ '.' :: qChars (jsModQ (targetValue : ℚ) 10)))
        else none
      | _, _ => none

/-- State of the (unconditional) extreme-settings scan of `unnamed/part_000`;
this variant records no micron bounds. -/
structure ScanState where
  minSetting : Option JsValue
  maxSetting : Option JsValue
  settingFormat : SettingFormat
deriving DecidableEq

/-- One iteration of the extreme-settings loop of `unnamed/part_000`'s
`queryMicrons` (no null check on the method's microns here). -/
def scanStep (st : ScanState) (m : BrewMethod) : ScanState :=
  match m.start_setting, m.end_setting with
  | some ss, some es =>
    if ss.isEmpty || es.isEmpty then st
    else
      match m.setting_format with
      | .simple =>
        match jsParseInt ss, jsParseInt es with
        | some startVal, some endVal =>
          let updMin :=
            match st.minSetting with
            | none => true
            | some cur => jsLtB (.num (startVal : ℚ)) cur
          let st1 := if updMin then { st with minSetting := some (.num (startVal : ℚ)) } else st
          let updMax :=
            match st1.maxSetting with
            | none => true
            | some cur => jsLtB cur (.num (endVal : ℚ))
          if updMax then { st1 with maxSetting := some (.num (endVal : ℚ)) } else st1
        | _, _ => st
      | .complex =>
        let st1 := { st with settingFormat := SettingFormat.complex }
        let st2 := if st1.minSetting.isNone then { st1 with minSetting := some (.str ss) } else st1
        if st2.maxSetting.isNone then { st2 with maxSetting := some (.str es) } else st2
  | _, _ => st

/-- Body of `unnamed/part_000`'s `queryMicrons` after the grinder lookup and
the range validation: unconditional scan, fallback, scoring, interpolation
against the grinder's own `[min_microns, max_microns]`. -/
def queryCore (grinder : Grinder) (params : QueryParams) : QueryResult :=
  let matching0 := grinder.brew_methods.filter (methodMatches params.brewMethod params.targetMicrons)
  let st0 : ScanState := ⟨none, none, .simple⟩
  let st := grinder.brew_methods.foldl scanStep st0
  let matching1 :=
    match matching0 with
    | [] => standardFallback STANDARD_BREW_METHODS params.brewMethod params.targetMicrons
              grinder.id st.settingFormat
    | _ => matching0
  let scored := matching1.map (scoreMethod params.targetMicrons)
  let sorted := stableInsertionSort (fun a b => decide (a.fit_score ≤ b.fit_score)) scored
  let calcSetting :=
    match st.minSetting, st.maxSetting, grinder.min_microns, grinder.max_microns with
    | some mnS, some mxS, some mnM, some mxM =>
      mapMicronsToSetting params.targetMicrons mnS mxS mnM mxM st.settingFormat
    | _, _, _, _ => none
  { grinder := grinder, target_microns := params.targetMicrons,
    calculated_setting := calcSetting, setting_format := st.settingFormat,
    grind_category := getGrindCategory params.targetMicrons,
    matching_methods := sorted }

/-- `queryMicrons` of `unnamed/part_000`: grinder lookup, then the hard
out-of-range validation against the grinder's declared overall range, then
the common body. -/
def queryMicrons (data : CoffeeData) (params : QueryParams) : Except QueryError QueryResult :=
  match data.grinders.find? (fun g => lowerIncludes g.name params.grinderName) with
  | none => Except.error (QueryError.notFound params.grinderName)
  | some grinder =>
    match grinder.min_microns, grinder.max_microns with
    | some mn, some mx =>
      if params.targetMicrons < mn ∨ mx < params.targetMicrons then
        Except.error (QueryError.outOfRange params.targetMicrons mn mx)
      else Except.ok (queryCore grinder params)
    | _, _ => Except.ok (queryCore grinder params)

end Part000

/-! ## Recipe data model (`@/types/recipe`) and `recipe-utils`

The repository holds two revisions of `recipe-utils.ts`; the first has only
the legacy (fixed-spacing) step generator, the second adds basic/advanced
modes and water-driven input.  Both are embedded (`RecipeUtilsV1`,
`RecipeUtils`).  `Step` keeps the fields the engine computes with
(`type`, `targetTimeInSeconds`, `targetWeight`, `targetRatio`); the uuid
`id` and the display strings `targetTime`, `instruction`, `description`
are presentation-only and omitted. -/

inductive StepType
  | bloom
  | pour
  | drawdown
deriving DecidableEq

inductive RecipeMode
  | basic
  | advanced
deriving DecidableEq

inductive InputMode
  | coffee
  | water
deriving DecidableEq

structure Step where
  type : StepType
  targetTimeInSeconds : ℚ
  targetWeight : ℚ
  targetRatio : ℚ
deriving DecidableEq

structure Recipe where
  coffeeWeight : ℚ
  waterWeight : ℚ
  ratio : ℚ
  bloomMultiplier : ℚ
  pours : ℕ
  steps : List Step
  totalBrewTime : ℚ
  mode : Option RecipeMode
  inputMode : Option InputMode
deriving DecidableEq

/-- Parameters of the second-revision `createCustomRecipe`; `Option` models
fields a caller may leave `undefined` (the water-temperature fields feed only
instruction text and are omitted). -/
structure CustomRecipeParams where
  coffeeWeight : Option ℚ
  ratio : ℚ
  pours : ℕ
  bloomMultiplier : Option ℚ
  totalBrewTimeSeconds : Option ℚ
  mode : Option RecipeMode
  inputMode : Option InputMode
  waterWeight : Option ℚ
  advancedSteps : Option (List Step)
deriving DecidableEq

structure CustomizationOptions where
  waterWeight : ℚ
deriving DecidableEq

def DEFAULT_BLOOM_TIME : ℚ := 45

def DEFAULT_POUR_TIME : ℚ := 15

def DEFAULT_INTERVAL_BETWEEN_POURS : ℚ := 15

def DEFAULT_DRAWDOWN_TIME : ℚ := 60

namespace RecipeUtils

/-- Left-zero-pad a digit list to width 2 (`padStart(2, '0')`). -/
def padTwo (cs : List Char) : List Char :=
  if cs.length ≥ 2 then cs
  else if cs.length = 1 then '0' :: cs
  else ['0', '0']

/-- `formatTime` (identical in both revisions): minutes unbounded, seconds
zero-padded to two digits.  The claims quantify over non-negative integer
second counts, where `Math.floor(s/60)` and `s % 60` are `Nat` div/mod. -/
def formatTime (seconds : ℕ) : List Char :=
  natToChars (seconds / 60) ++ ':' :: padTwo (natToChars (seconds % 60))

/-- `parseTimeToSeconds` (identical in both revisions): split on `':'`,
convert the first two pieces with `Number`, combine; a missing or
non-numeric piece makes the JS result NaN, modelled as `none`. -/
def parseTimeToSeconds (timeStr : List Char) : Option ℕ :=
  match splitOnChar ':' timeStr with
  | m :: s :: _ =>
    match jsStrToNat m, jsStrToNat s with
    | some mins, some secs => some (mins * 60 + secs)
    | _, _ => none
  | _ => none

/-- `createStep` restricted to the computed fields (uuid and display strings
omitted). -/
def createStep (type : StepType) (targetTimeInSeconds targetWeight targetRatio : ℚ) : Step :=
  ⟨type, targetTimeInSeconds, targetWeight, targetRatio⟩

/-- The pour `for`-loop common to both step generators: starting at time `t`,
push `n` pour steps of constant weight and ratio, advancing the clock by `dt`
per iteration; returns the steps and the final clock value. -/
def pourLoop (waterPerPour pourRatio dt : ℚ) : ℕ → ℚ → List Step × ℚ
  | 0, t => ([], t)
  | n + 1, t =>
    let rest := pourLoop waterPerPour pourRatio dt n (t + dt)
    (createStep .pour t waterPerPour pourRatio :: rest.1, rest.2)

/-- `createLegacySteps`: bloom at 0, pours spaced by the fixed
pour-plus-interval constant, terminal drawdown. -/
def createLegacySteps (waterWeight bloomWater bloomRatio : ℚ) (pours : ℕ) : List Step :=
  let remainingWater := waterWeight - bloomWater
  let waterPerPour : ℚ := (jsRound (remainingWater / (pours : ℚ)) : ℤ)
  let pourRatio := remainingWater / (pours : ℚ) / waterWeight
  let lp := pourLoop waterPerPour pourRatio (DEFAULT_POUR_TIME + DEFAULT_INTERVAL_BETWEEN_POURS)
    pours DEFAULT_BLOOM_TIME
  createStep .bloom 0 bloomWater bloomRatio :: lp.1 ++ [createStep .drawdown lp.2 0 0]

/-- `createBasicModeSteps`: the post-bloom, pre-drawdown time budget is
divided evenly (floored) into `pours` intervals.  (The running
`currentWater` total and the temperature text feed only instruction
strings.) -/
def createBasicModeSteps (waterWeight bloomWater bloomRatio : ℚ) (pours : ℕ)
    (totalBrewTimeSeconds : ℚ) : List Step :=
  let bloomDuration := DEFAULT_BLOOM_TIME
  let remainingTime := totalBrewTimeSeconds - bloomDuration - DEFAULT_DRAWDOWN_TIME
  let remainingWater := waterWeight - bloomWater
  let timePerPourInterval : ℚ :=
    if pours > 0 then ((jsFloorQ (remainingTime / (pours : ℚ)) : ℤ) : ℚ) else 0
  let waterPerPour : ℚ :=
    if pours > 0 then ((jsRound (remainingWater / (pours : ℚ)) : ℤ) : ℚ) else 0
  let pourRatio := remainingWater / (pours : ℚ) / waterWeight
  let lp := pourLoop waterPerPour pourRatio timePerPourInterval pours bloomDuration
  createStep .bloom 0 bloomWater bloomRatio :: lp.1 ++ [createStep .drawdown lp.2 0 0]

/-- The `inputMode` branch of `createCustomRecipe` resolving
`(coffeeWeight, waterWeight)` (with the `|| 20` / `|| 320` fallbacks). -/
def resolveWeights (params : CustomRecipeParams) : ℚ × ℚ :=
  match params.inputMode.getD .coffee with
  | .coffee =>
    let coffeeWeight := jsOrQ params.coffeeWeight 20
    (coffeeWeight, coffeeWeight * params.ratio)
  | .water =>
    let waterWeight := jsOrQ params.waterWeight 320
    (((jsRound (waterWeight / params.ratio) : ℤ) : ℚ), waterWeight)

/-- The destructuring default for `totalBrewTimeSeconds`. -/
def resolveTotalTime (params : CustomRecipeParams) : ℚ :=
  params.totalBrewTimeSeconds.getD
    (DEFAULT_BLOOM_TIME
      + (params.pours : ℚ) * (DEFAULT_POUR_TIME + DEFAULT_INTERVAL_BETWEEN_POURS)
      + DEFAULT_DRAWDOWN_TIME)

/-- `createCustomRecipe` (second revision).  On `advancedSteps = some []` the
JS code would crash reading `lastStep.targetTimeInSeconds` of `undefined`;
the model's `getD 0` is never exercised by a claim. -/
def createCustomRecipe (params : CustomRecipeParams) : Recipe :=
  let pours := params.pours
  let bloomMultiplier := params.bloomMultiplier.getD 3
  let mode := params.mode.getD .basic
  let inputMode := params.inputMode.getD .coffee
  let totalBrewTimeSeconds := resolveTotalTime params
  let coffeeWeight := (resolveWeights params).1
  let waterWeight := (resolveWeights params).2
  let bloomWater : ℚ := ((jsRound (coffeeWeight * bloomMultiplier) : ℤ) : ℚ)
  let steps :=
    match mode, params.advancedSteps with
    | .basic, _ => createBasicModeSteps waterWeight bloomWater bloomMultiplier pours totalBrewTimeSeconds
    | .advanced, some s => s
    | .advanced, none => createLegacySteps waterWeight bloomWater bloomMultiplier pours
  let totalBrewTime := (steps.getLast?.map Step.targetTimeInSeconds).getD 0 + DEFAULT_DRAWDOWN_TIME
  { coffeeWeight := coffeeWeight, waterWeight := waterWeight, ratio := params.ratio,
    bloomMultiplier := bloomMultiplier, pours := pours, steps := steps,
    totalBrewTime := totalBrewTime, mode := some mode, inputMode := some inputMode }

/-- `calculateRecipeWithCustomWater` (textually identical in both revisions).
The second pass over the steps rewrites only the `reach Ng` instruction text
(via `getRunningTotal`); with display strings omitted it leaves every step
unchanged and is not modelled. -/
def calculateRecipeWithCustomWater (recipe : Recipe) (options : CustomizationOptions) : Recipe :=
  let customWaterWeight := options.waterWeight
  let adjustedCoffeeWeight : ℚ := ((jsRound (customWaterWeight / recipe.ratio) : ℤ) : ℚ)
  { recipe with
    coffeeWeight := adjustedCoffeeWeight,
    waterWeight := customWaterWeight,
    steps := recipe.steps.map (fun step =>
      match step.type with
      | .bloom =>
        { step with targetWeight := ((jsRound (adjustedCoffeeWeight * step.targetRatio) : ℤ) : ℚ) }
      | .pour =>
        { step with targetWeight := ((jsRound (customWaterWeight * step.targetRatio) : ℤ) : ℚ) }
      | .drawdown => step) }

end RecipeUtils

namespace RecipeUtilsV1

/-- Parameters of the first-revision `createCustomRecipe` (coffee-driven
only). -/
structure CustomRecipeParams where
  coffeeWeight : ℚ
  ratio : ℚ
  pours : ℕ
  bloomMultiplier : Option ℚ
deriving DecidableEq

/-- `createCustomRecipe` (first revision): `params.bloomMultiplier || 3`
(so an explicit `0` also falls back to `3`), bloom at 0, fixed-spacing
pours, terminal drawdown. -/
def createCustomRecipe (params : CustomRecipeParams) : Recipe :=
  let bloomMultiplier := jsOrQ params.bloomMultiplier 3
  let waterWeight := params.coffeeWeight * params.ratio
  let bloomWater : ℚ := ((jsRound (params.coffeeWeight * bloomMultiplier) : ℤ) : ℚ)
  let remainingWater := waterWeight - bloomWater
  let waterPerPour : ℚ := ((jsRound (remainingWater / (params.pours : ℚ)) : ℤ) : ℚ)
  let pourRatio := remainingWater / (params.pours : ℚ) / waterWeight
  let lp := RecipeUtils.pourLoop waterPerPour pourRatio
    (DEFAULT_POUR_TIME + DEFAULT_INTERVAL_BETWEEN_POURS) params.pours DEFAULT_BLOOM_TIME
  let steps := RecipeUtils.createStep .bloom 0 bloomWater bloomMultiplier
    :: lp.1 ++ [RecipeUtils.createStep .drawdown lp.2 0 0]
  { coffeeWeight := params.coffeeWeight, waterWeight := waterWeight, ratio := params.ratio,
    bloomMultiplier := bloomMultiplier, pours := params.pours, steps := steps,
    totalBrewTime := lp.2 + DEFAULT_DRAWDOWN_TIME, mode := none, inputMode := none }

end RecipeUtilsV1

/-! ## Statement-level definitions used by the claims -/

/-- The claim's `bloomWeight` formula, which is also the code's internal
`bloomWater`: `Math.round(coffeeWeight * bloomMultiplier)`. -/
def bloomWaterOf (params : CustomRecipeParams) : ℚ :=
  ((jsRound ((RecipeUtils.resolveWeights params).1 * params.bloomMultiplier.getD 3) : ℤ) : ℚ)

/-- The claim's `waterPerPour` formula, which is also the code's internal
`waterPerPour`: `Math.round((waterWeight - bloomWeight) / pours)`. -/
def waterPerPourOf (params : CustomRecipeParams) : ℚ :=
  ((jsRound (((RecipeUtils.resolveWeights params).2 - bloomWaterOf params) / (params.pours : ℚ)) : ℤ) : ℚ)

/-- The step-ordering invariant of a generated sequence: bloom first at time
0, `pours` pour steps, terminal drawdown of weight 0, strictly increasing
`targetTimeInSeconds`. -/
def StepsWellFormed (steps : List Step) (pours : ℕ) : Prop :=
  steps.map Step.type = StepType.bloom :: (List.replicate pours .pour ++ [.drawdown])
  ∧ steps.head?.map Step.targetTimeInSeconds = some 0
  ∧ steps.getLast?.map Step.targetWeight = some 0
  ∧ List.Chain' (· < ·) (steps.map Step.targetTimeInSeconds)

/-- A grinder whose declared range is `[200, 1200]`, with a single
simple-format V60 method (settings 10–15 over 300–600 microns). -/
def rangeCheckGrinder : Grinder :=
  ⟨1, "Test Grinder".data, some 200, some 1200, 10,
   [⟨1, 1, "V60".data, some 300, some 600, some ("10".data), some ("15".data),
     .simple, some .mediumFine⟩]⟩

/-- The one-grinder catalog around `rangeCheckGrinder`. -/
def rangeCheckCatalog : CoffeeData := ⟨[rangeCheckGrinder]⟩

/-- A query against `rangeCheckCatalog` whose target (5000 μm) lies strictly
outside the grinder's declared `[200, 1200]` range. -/
def rangeCheckQuery : QueryParams := ⟨"test".data, 5000, none⟩

/-- The source-test recipe parameters (`recipe-utils.test.ts`):
`coffeeWeight 20, ratio 16, pours 4, bloomMultiplier 2.5`. -/
def conservationParams : CustomRecipeParams :=
  ⟨some 20, 16, 4, some (5/2), none, none, none, none, none⟩

/-- Default-timing basic-mode parameters with two pours. -/
def orderingParams : CustomRecipeParams :=
  ⟨some 20, 16, 2, none, none, none, none, none, none⟩

/-- Basic-mode parameters with a 105-second total budget: the post-bloom time
budget is zero, so every pour lands at 45 s. -/
def orderingCexParams : CustomRecipeParams :=
  ⟨some 20, 16, 1, none, some 105, some .basic, none, none, none⟩

/-- Coffee-mode parameters used to witness non-negative step weights. -/
def nonNegParams : CustomRecipeParams :=
  ⟨some 18, 15, 3, some 2, none, none, none, none, none⟩

/-- Water-driven parameters (`waterWeight 10, ratio 16, bloomMultiplier 16`)
whose rounded coffee weight makes the bloom exceed the total water. -/
def waterModeCexParams : CustomRecipeParams :=
  ⟨none, 16, 1, some 16, none, none, some .water, some 10, none⟩

/-- Coffee-mode parameters with a negative bloom multiplier (still `≤ ratio`). -/
def negBloomCexParams : CustomRecipeParams :=
  ⟨some 20, 16, 1, some (-5), none, none, none, none, none⟩

/-- The Low-Key Coffee Snobs predefined V60 recipe (computed fields only),
whose step weights are consistent with its stored ratios. -/
def lowKeyRecipe : Recipe :=
  { coffeeWeight := 18, waterWeight := 288, ratio := 16, bloomMultiplier := 3, pours := 3,
    steps := [⟨.bloom, 0, 54, 3⟩, ⟨.pour, 45, 78, 78/288⟩, ⟨.pour, 75, 78, 78/288⟩,
      ⟨.pour, 105, 78, 78/288⟩, ⟨.drawdown, 135, 0, 0⟩],
    totalBrewTime := 180, mode := none, inputMode := none }

/-- The click-equivalent value of a complex setting: the `numValue`
component computed by `parseComplexSetting`. -/
def clickEquiv (cpn : ℚ) (v : JsValue) : Option ℚ :=
  (CoffeeUtils.parseComplexSetting cpn v).map (fun t => t.2.2.2)

/-- The complex setting "1.0.0" (built from its rendered components). -/
def complexMinSetting : JsValue :=
  .str (intToChars 1 ++ '.' :: (intToChars 0 ++ '.' :: intToChars 0))

/-- The complex setting "2.0.0" (built from its rendered components). -/
def complexMaxSetting : JsValue :=
  .str (intToChars 2 ++ '.' :: (intToChars 0 ++ '.' :: intToChars 0))

/-! ## SECTION-THEOREMS : supporting lemmas -/

theorem jsRound_le (x : ℚ) : (jsRound x : ℚ) ≤ x + 1/2 :=
  Int.floor_le _

theorem lt_jsRound (x : ℚ) : x - 1/2 < (jsRound x : ℚ) := by
  have h := Int.sub_one_lt_floor (x + 1/2)
  unfold jsRound
  linarith

theorem jsRound_intCast (n : ℤ) : jsRound (n : ℚ) = n :=
  Int.floor_eq_iff.mpr ⟨by norm_num, by norm_num⟩

theorem jsRound_mono {x y : ℚ} (h : x ≤ y) : jsRound x ≤ jsRound y :=
  Int.floor_le_floor (by linarith)

theorem jsRound_nonneg {x : ℚ} (h : 0 ≤ x) : 0 ≤ jsRound x := by
  unfold jsRound
  exact Int.floor_nonneg.mpr (by linarith)

/-! ## Decimal digit strings

`natToChars` renders a natural number the way a JS template literal renders a
nonnegative integer number; `digitsValFold` is the accumulator loop shared by
the models of `parseInt` and `Number`. -/

/-- Value of a big-endian digit-character list, starting from `acc`. -/

theorem digitChar_toNat_sub {d : ℕ} (h : d < 10) : (Nat.digitChar d).toNat - 48 = d := by
  interval_cases d <;> decide

theorem digitChar_isDigit {d : ℕ} (h : d < 10) : (Nat.digitChar d).isDigit = true := by
  interval_cases d <;> decide

theorem natToCharsAux_parse (fuel : ℕ) :
    ∀ n acc, n ≤ fuel → digitsValFold 0 (natToCharsAux fuel n acc) = digitsValFold n acc := by
  induction fuel with
  | zero =>
    intro n acc h
    interval_cases n
    rfl
  | succ f ih =>
    intro n acc h
    cases n with
    | zero => rfl
    | succ m =>
      have hdiv : (m + 1) / 10 ≤ f := by
        have h1 : (m + 1) / 10 < m + 1 := Nat.div_lt_self (Nat.succ_pos m) (by norm_num)
        omega
      have hstep : natToCharsAux (f + 1) (m + 1) acc
          = natToCharsAux f ((m + 1) / 10) (Nat.digitChar ((m + 1) % 10) :: acc) := rfl
      rw [hstep, ih _ _ hdiv]
      have hfold : digitsValFold ((m + 1) / 10) (Nat.digitChar ((m + 1) % 10) :: acc)
          = digitsValFold (10 * ((m + 1) / 10) + ((Nat.digitChar ((m + 1) % 10)).toNat - 48)) acc := rfl
      rw [hfold, digitChar_toNat_sub (Nat.mod_lt _ (by norm_num))]
      congr 1
      omega

theorem natToChars_parse (n : ℕ) : digitsValFold 0 (natToChars n) = n := by
  unfold natToChars
  split
  · rename_i h; subst h; rfl
  · have := natToCharsAux_parse n n [] le_rfl
    rw [this]
    rfl

theorem natToCharsAux_all {P : Char → Prop} (hd : ∀ d < 10, P (Nat.digitChar d)) (fuel : ℕ) :
    ∀ n acc, (∀ c ∈ acc, P c) → ∀ c ∈ natToCharsAux fuel n acc, P c := by
  induction fuel with
  | zero => intro n acc hacc; exact hacc
  | succ f ih =>
    intro n acc hacc
    cases n with
    | zero => exact hacc
    | succ m =>
      have hstep : natToCharsAux (f + 1) (m + 1) acc
          = natToCharsAux f ((m + 1) / 10) (Nat.digitChar ((m + 1) % 10) :: acc) := rfl
      rw [hstep]
      refine ih _ _ ?_
      intro c hc
      rcases List.mem_cons.mp hc with h | h
      · subst h; exact hd _ (Nat.mod_lt _ (by norm_num))
      · exact hacc c h

theorem natToChars_isDigit (n : ℕ) : ∀ c ∈ natToChars n, c.isDigit = true := by
  unfold natToChars
  split
  · intro c hc; simp at hc; subst hc; decide
  · exact natToCharsAux_all (fun d hd => digitChar_isDigit hd) n n [] (by simp)

theorem natToCharsAux_ne_nil (fuel : ℕ) :
    ∀ k acc, acc ≠ ([] : List Char) → natToCharsAux fuel k acc ≠ [] := by
  induction fuel with
  | zero => intro k acc h; exact h
  | succ f ih =>
    intro k acc h
    cases k with
    | zero => exact h
    | succ j =>
      have hstep : natToCharsAux (f + 1) (j + 1) acc
          = natToCharsAux f ((j + 1) / 10) (Nat.digitChar ((j + 1) % 10) :: acc) := rfl
      rw [hstep]
      exact ih _ _ (by simp)

theorem natToChars_ne_nil (n : ℕ) : natToChars n ≠ [] := by
  unfold natToChars
  split
  · simp
  · cases n with
    | zero => simp_all
    | succ m =>
      have hstep : natToCharsAux (m + 1) (m + 1) []
          = natToCharsAux m ((m + 1) / 10) [Nat.digitChar ((m + 1) % 10)] := rfl
      rw [hstep]
      exact natToCharsAux_ne_nil m _ _ (by simp)

theorem intToChars_nonneg (z : ℤ) (h : 0 ≤ z) : intToChars z = natToChars z.natAbs := by
  unfold intToChars
  rw [if_neg (by omega)]

/-! ## JS string splitting and numeric parsing -/

/-- Prepend a character to the first piece of a split result. -/

theorem splitOnChar_ne_nil (sep : Char) (cs : List Char) : splitOnChar sep cs ≠ [] := by
  induction cs with
  | nil => simp [splitOnChar]
  | cons c rest ih =>
    simp only [splitOnChar]
    split
    · simp
    · cases hsp : splitOnChar sep rest <;> simp [splitConsHead]

theorem splitOnChar_no_sep (sep : Char) (cs : List Char) (h : ∀ c ∈ cs, c ≠ sep) :
    splitOnChar sep cs = [cs] := by
  induction cs with
  | nil => rfl
  | cons c rest ih =>
    simp only [splitOnChar]
    rw [if_neg (h c (by simp))]
    rw [ih (fun x hx => h x (by simp [hx]))]
    rfl

theorem splitOnChar_append (sep : Char) (xs ys : List Char) (h : ∀ c ∈ xs, c ≠ sep) :
    splitOnChar sep (xs ++ sep :: ys) = xs :: splitOnChar sep ys := by
  induction xs with
  | nil => simp [splitOnChar]
  | cons c rest ih =>
    show splitOnChar sep (c :: (rest ++ sep :: ys)) = _
    simp only [splitOnChar]
    rw [if_neg (h c (by simp))]
    rw [ih (fun x hx => h x (by simp [hx]))]
    rfl

/-- Value of a digit run for the models of `parseInt` / `Number`. -/

theorem takeWhile_all_eq {p : Char → Bool} (cs : List Char) (h : ∀ c ∈ cs, p c = true) :
    cs.takeWhile p = cs := by
  induction cs with
  | nil => rfl
  | cons c rest ih =>
    rw [List.takeWhile_cons, if_pos (h c (by simp))]
    rw [ih (fun x hx => h x (by simp [hx]))]

theorem leadDigitsVal_natToChars (n : ℕ) : leadDigitsVal (natToChars n) = some n := by
  unfold leadDigitsVal
  rw [takeWhile_all_eq _ (natToChars_isDigit n)]
  simp only [if_neg (natToChars_ne_nil n)]
  rw [natToChars_parse]

theorem digit_ne_minus {c : Char} (h : c.isDigit = true) : c ≠ '-' := by
  intro hc; subst hc; simp [Char.isDigit] at h

theorem digit_ne_plus {c : Char} (h : c.isDigit = true) : c ≠ '+' := by
  intro hc; subst hc; simp [Char.isDigit] at h

theorem jsParseInt_natToChars (n : ℕ) : jsParseInt (natToChars n) = some (n : ℤ) := by
  have hne := natToChars_ne_nil n
  have hdig := natToChars_isDigit n
  have hlead := leadDigitsVal_natToChars n
  cases hcs : natToChars n with
  | nil => exact absurd hcs hne
  | cons c rest =>
    have hc : c.isDigit = true := hdig c (by rw [hcs]; simp)
    simp only [jsParseInt]
    rw [if_neg (digit_ne_minus hc), if_neg (digit_ne_plus hc), ← hcs, hlead]
    rfl

theorem digit_ne_colon {c : Char} (h : c.isDigit = true) : c ≠ ':' := by
  intro hc; subst hc; exact absurd h (by decide)

theorem jsStrToNat_natToChars (n : ℕ) : jsStrToNat (natToChars n) = some n := by
  unfold jsStrToNat
  rw [if_neg (natToChars_ne_nil n), if_pos (List.all_eq_true.mpr (natToChars_isDigit n)),
    natToChars_parse]

theorem padTwo_chars (cs : List Char) : ∀ c ∈ RecipeUtils.padTwo cs, c = '0' ∨ c ∈ cs := by
  unfold RecipeUtils.padTwo
  split
  · intro c hc; exact Or.inr hc
  · split
    · intro c hc
      rcases List.mem_cons.mp hc with h | h
      · exact Or.inl h
      · exact Or.inr h
    · intro c hc
      rcases List.mem_cons.mp hc with h | h
      · exact Or.inl h
      · simp at h; exact Or.inl h

theorem jsStrToNat_padTwo (n : ℕ) : jsStrToNat (RecipeUtils.padTwo (natToChars n)) = some n := by
  unfold RecipeUtils.padTwo
  split
  · exact jsStrToNat_natToChars n
  · split
    · have hall : ('0' :: natToChars n).all Char.isDigit = true := by
        refine List.all_eq_true.mpr ?_
        intro c hc
        rcases List.mem_cons.mp hc with h | h
        · subst h; decide
        · exact natToChars_isDigit n c h
      unfold jsStrToNat
      rw [if_neg (by simp), if_pos hall]
      have hval : digitsValFold 0 ('0' :: natToChars n) = digitsValFold 0 (natToChars n) := rfl
      rw [hval, natToChars_parse]
    · exfalso
      rename_i hge h1
      have hne := natToChars_ne_nil n
      have hlen : (natToChars n).length = 0 := by omega
      exact hne (List.length_eq_zero.mp hlen)

theorem parseTime_formatTime (s : ℕ) :
    RecipeUtils.parseTimeToSeconds (RecipeUtils.formatTime s) = some s := by
  unfold RecipeUtils.formatTime RecipeUtils.parseTimeToSeconds
  rw [splitOnChar_append ':' _ _ (fun c hc => digit_ne_colon (natToChars_isDigit _ c hc))]
  rw [splitOnChar_no_sep ':' _ ?hns]
  case hns =>
    intro c hc
    rcases padTwo_chars _ c hc with h | h
    · subst h; decide
    · exact digit_ne_colon (natToChars_isDigit _ c h)
  simp only [jsStrToNat_natToChars, jsStrToNat_padTwo]
  congr 1
  omega

/-- C7 — Time round-trip: `parseTimeToSeconds (formatTime s) = s` for every
non-negative integer `s` (no upper bound on the minutes); concretely
`formatTime 3661 = "61:01"` and `parseTimeToSeconds "61:01" = 3661`. -/
theorem time_round_trip :
    (∀ s : ℕ, RecipeUtils.parseTimeToSeconds (RecipeUtils.formatTime s) = some s)
    ∧ RecipeUtils.formatTime 3661 = "61:01".data
    ∧ RecipeUtils.parseTimeToSeconds ("61:01".data) = some 3661 :=
  ⟨parseTime_formatTime, by decide, by decide⟩

/-- C1 — Boundary echo: for every valid range (`minMicrons < maxMicrons`),
every setting format and every `clicksPerNumber`, `mapMicronsToSetting`
returns `minSetting` verbatim whenever `microns ≤ minMicrons` and
`maxSetting` verbatim whenever `microns ≥ maxMicrons`; in particular it
echoes the boundary settings exactly at `minMicrons` and `maxMicrons`. -/
theorem mapMicronsToSetting_boundary_echo
    (microns minMicrons maxMicrons clicksPerNumber : ℚ) (minSetting maxSetting : JsValue)
    (fmt : SettingFormat) (hrange : minMicrons < maxMicrons) :
    (microns ≤ minMicrons →
      CoffeeUtils.mapMicronsToSetting microns minSetting maxSetting minMicrons maxMicrons fmt
        clicksPerNumber = some minSetting)
    ∧ (maxMicrons ≤ microns →
      CoffeeUtils.mapMicronsToSetting microns minSetting maxSetting minMicrons maxMicrons fmt
        clicksPerNumber = some maxSetting)
    ∧ CoffeeUtils.mapMicronsToSetting minMicrons minSetting maxSetting minMicrons maxMicrons fmt
        clicksPerNumber = some minSetting
    ∧ CoffeeUtils.mapMicronsToSetting maxMicrons minSetting maxSetting minMicrons maxMicrons fmt
        clicksPerNumber = some maxSetting := by
  unfold CoffeeUtils.mapMicronsToSetting
  refine ⟨fun h => by rw [if_pos h], fun h => ?_, by rw [if_pos le_rfl], ?_⟩
  · rw [if_neg (by linarith), if_pos h]
  · rw [if_neg (by linarith), if_pos le_rfl]

theorem mapMicronsToSetting_boundary_echo_witness :
    (300 : ℚ) < 600
    ∧ CoffeeUtils.mapMicronsToSetting 300 (.num 10) (.num 20) 300 600 .simple 10
        = some (.num 10)
    ∧ CoffeeUtils.mapMicronsToSetting 600 (.num 10) (.num 20) 300 600 .simple 10
        = some (.num 20) :=
  ⟨by norm_num,
   (mapMicronsToSetting_boundary_echo 300 300 600 10 (.num 10) (.num 20) .simple
     (by norm_num)).2.2.1,
   (mapMicronsToSetting_boundary_echo 600 300 600 10 (.num 10) (.num 20) .simple
     (by norm_num)).2.2.2⟩

/-- C4 counterexample: with the degenerate range `maxMicrons = 300 ≤ 600 =
minMicrons`, `mapMicronsToSetting` does not fail — the clamp fires first and
it returns `minSetting` (a setting value, not the null outcome). -/
theorem mapMicronsToSetting_degenerate_counterexample :
    CoffeeUtils.mapMicronsToSetting 450 (.num 10) (.num 20) 600 300 .simple 10
      = some (.num 10)
    ∧ CoffeeUtils.mapMicronsToSetting 450 (.num 10) (.num 20) 600 300 .simple 10 ≠ none := by
  constructor <;> decide

/-- C4 (amended): when `maxMicrons ≤ minMicrons`, the clamp branches fire
before the degenerate-range check: the call returns `minSetting` when
`microns ≤ minMicrons` and `maxSetting` otherwise; the `null`
(DegenerateRange) branch of `mapMicronsToSetting` is unreachable. -/
theorem mapMicronsToSetting_degenerate_clamps
    (microns minMicrons maxMicrons clicksPerNumber : ℚ) (minSetting maxSetting : JsValue)
    (fmt : SettingFormat) (hdegenerate : maxMicrons ≤ minMicrons) :
    CoffeeUtils.mapMicronsToSetting microns minSetting maxSetting minMicrons maxMicrons fmt
        clicksPerNumber
      = some (if microns ≤ minMicrons then minSetting else maxSetting) := by
  unfold CoffeeUtils.mapMicronsToSetting
  split
  · rfl
  · rename_i hgt
    push_neg at hgt
    rw [if_pos (show maxMicrons ≤ microns by linarith)]

theorem mapMicronsToSetting_degenerate_clamps_witness :
    (300 : ℚ) ≤ 600
    ∧ CoffeeUtils.mapMicronsToSetting 700 (.num 10) (.num 20) 600 300 .simple 10
        = some (.num 20) := by
  refine ⟨by norm_num, ?_⟩
  have h := mapMicronsToSetting_degenerate_clamps 700 600 300 10 (.num 10) (.num 20) .simple
    (by norm_num)
  rw [h, if_neg (by norm_num)]

theorem getGrindCategory_band0 (m : ℚ) (h1 : (0:ℚ) ≤ m) (h2 : m < 200) :
    getGrindCategory m = .extraFine := by
  simp only [getGrindCategory, GRIND_CATEGORY_RANGES, List.find?_cons,
    decide_eq_true h1, decide_eq_true h2, Bool.and_true, Bool.true_and]

theorem getGrindCategory_band1 (m : ℚ) (h1 : (200:ℚ) ≤ m) (h2 : m < 400) :
    getGrindCategory m = .fine := by
  simp only [getGrindCategory, GRIND_CATEGORY_RANGES, List.find?_cons,
    decide_eq_false (show ¬ m < 200 by linarith),
    decide_eq_true h1, decide_eq_true h2, Bool.and_false, Bool.and_true, Bool.true_and]

theorem getGrindCategory_band2 (m : ℚ) (h1 : (400:ℚ) ≤ m) (h2 : m < 600) :
    getGrindCategory m = .mediumFine := by
  simp only [getGrindCategory, GRIND_CATEGORY_RANGES, List.find?_cons,
    decide_eq_false (show ¬ m < 200 by linarith),
    decide_eq_false (show ¬ m < 400 by linarith),
    decide_eq_true h1, decide_eq_true h2, Bool.and_false, Bool.and_true, Bool.true_and]

theorem getGrindCategory_band3 (m : ℚ) (h1 : (600:ℚ) ≤ m) (h2 : m < 800) :
    getGrindCategory m = .medium := by
  simp only [getGrindCategory, GRIND_CATEGORY_RANGES, List.find?_cons,
    decide_eq_false (show ¬ m < 200 by linarith),
    decide_eq_false (show ¬ m < 400 by linarith),
    decide_eq_false (show ¬ m < 600 by linarith),
    decide_eq_true h1, decide_eq_true h2, Bool.and_false, Bool.and_true, Bool.true_and]

theorem getGrindCategory_band4 (m : ℚ) (h1 : (800:ℚ) ≤ m) (h2 : m < 1000) :
    getGrindCategory m = .mediumCoarse := by
  simp only [getGrindCategory, GRIND_CATEGORY_RANGES, List.find?_cons,
    decide_eq_false (show ¬ m < 200 by linarith),
    decide_eq_false (show ¬ m < 400 by linarith),
    decide_eq_false (show ¬ m < 600 by linarith),
    decide_eq_false (show ¬ m < 800 by linarith),
    decide_eq_true h1, decide_eq_true h2, Bool.and_false, Bool.and_true, Bool.true_and]

theorem getGrindCategory_band5 (m : ℚ) (h1 : (1000:ℚ) ≤ m) (h2 : m < 1200) :
    getGrindCategory m = .coarse := by
  simp only [getGrindCategory, GRIND_CATEGORY_RANGES, List.find?_cons,
    decide_eq_false (show ¬ m < 200 by linarith),
    decide_eq_false (show ¬ m < 400 by linarith),
    decide_eq_false (show ¬ m < 600 by linarith),
    decide_eq_false (show ¬ m < 800 by linarith),
    decide_eq_false (show ¬ m < 1000 by linarith),
    decide_eq_true h1, decide_eq_true h2, Bool.and_false, Bool.and_true, Bool.true_and]

theorem getGrindCategory_band6 (m : ℚ) (h1 : (1200:ℚ) ≤ m) (h2 : m < 1400) :
    getGrindCategory m = .extraCoarse := by
  simp only [getGrindCategory, GRIND_CATEGORY_RANGES, List.find?_cons,
    decide_eq_false (show ¬ m < 200 by linarith),
    decide_eq_false (show ¬ m < 400 by linarith),
    decide_eq_false (show ¬ m < 600 by linarith),
    decide_eq_false (show ¬ m < 800 by linarith),
    decide_eq_false (show ¬ m < 1000 by linarith),
    decide_eq_false (show ¬ m < 1200 by linarith),
    decide_eq_true h1, decide_eq_true h2, Bool.and_false, Bool.and_true, Bool.true_and]

theorem getGrindCategory_below (m : ℚ) (h : m < 0) : getGrindCategory m = .extraFine := by
  simp only [getGrindCategory, GRIND_CATEGORY_RANGES, List.find?_cons,
    decide_eq_false (show ¬ (0:ℚ) ≤ m by linarith),
    decide_eq_false (show ¬ (200:ℚ) ≤ m by linarith),
    decide_eq_false (show ¬ (400:ℚ) ≤ m by linarith),
    decide_eq_false (show ¬ (600:ℚ) ≤ m by linarith),
    decide_eq_false (show ¬ (800:ℚ) ≤ m by linarith),
    decide_eq_false (show ¬ (1000:ℚ) ≤ m by linarith),
    decide_eq_false (show ¬ (1200:ℚ) ≤ m by linarith),
    Bool.false_and, List.find?_nil, if_pos h]

theorem getGrindCategory_above (m : ℚ) (h : (1400:ℚ) ≤ m) :
    getGrindCategory m = .extraCoarse := by
  simp only [getGrindCategory, GRIND_CATEGORY_RANGES, List.find?_cons,
    decide_eq_false (show ¬ m < 200 by linarith),
    decide_eq_false (show ¬ m < 400 by linarith),
    decide_eq_false (show ¬ m < 600 by linarith),
    decide_eq_false (show ¬ m < 800 by linarith),
    decide_eq_false (show ¬ m < 1000 by linarith),
    decide_eq_false (show ¬ m < 1200 by linarith),
    decide_eq_false (show ¬ m < 1400 by linarith),
    Bool.and_false, List.find?_nil, if_neg (show ¬ m < 0 by linarith)]

/-- C9 — Category classification totality and partition: `getGrindCategory`
is total on `ℚ` (it is a Lean function); whenever a table entry's half-open
`[min, max)` interval contains the value it returns that (unique) category;
values below 0 return Extra Fine and values at or above 1400 return Extra
Coarse; concretely `getGrindCategory 199 = ExtraFine` and
`getGrindCategory 200 = Fine`. -/
theorem getGrindCategory_partition :
    (∀ m : ℚ, ∀ e ∈ GRIND_CATEGORY_RANGES, e.2.1 ≤ m → m < e.2.2 → getGrindCategory m = e.1)
    ∧ (∀ m : ℚ, m < 0 → getGrindCategory m = .extraFine)
    ∧ (∀ m : ℚ, (1400:ℚ) ≤ m → getGrindCategory m = .extraCoarse)
    ∧ getGrindCategory 199 = .extraFine
    ∧ getGrindCategory 200 = .fine := by
  refine ⟨?_, getGrindCategory_below, getGrindCategory_above, by decide, by decide⟩
  intro m e he h1 h2
  fin_cases he
  · exact getGrindCategory_band0 m h1 h2
  · exact getGrindCategory_band1 m h1 h2
  · exact getGrindCategory_band2 m h1 h2
  · exact getGrindCategory_band3 m h1 h2
  · exact getGrindCategory_band4 m h1 h2
  · exact getGrindCategory_band5 m h1 h2
  · exact getGrindCategory_band6 m h1 h2

theorem getGrindCategory_partition_witness :
    (GrindCategory.fine, (200:ℚ), (400:ℚ)) ∈ GRIND_CATEGORY_RANGES
    ∧ (200:ℚ) ≤ 250 ∧ (250:ℚ) < 400
    ∧ getGrindCategory 250 = .fine
    ∧ (-3:ℚ) < 0 ∧ getGrindCategory (-3) = .extraFine
    ∧ (1400:ℚ) ≤ 2000 ∧ getGrindCategory 2000 = .extraCoarse :=
  ⟨by decide, by norm_num, by norm_num,
   getGrindCategory_partition.1 250 (GrindCategory.fine, (200:ℚ), (400:ℚ)) (by decide)
     (by norm_num) (by norm_num),
   by norm_num, getGrindCategory_partition.2.1 (-3) (by norm_num),
   by norm_num, getGrindCategory_partition.2.2.1 2000 (by norm_num)⟩

theorem pourLoop_weights (w r dt : ℚ) :
    ∀ (n : ℕ) (t : ℚ),
      (RecipeUtils.pourLoop w r dt n t).1.map Step.targetWeight = List.replicate n w := by
  intro n
  induction n with
  | zero => intro t; rfl
  | succ k ih =>
    intro t
    simp only [RecipeUtils.pourLoop, List.map_cons, ih, List.replicate_succ]
    rfl

theorem pourLoop_types (w r dt : ℚ) :
    ∀ (n : ℕ) (t : ℚ),
      (RecipeUtils.pourLoop w r dt n t).1.map Step.type = List.replicate n StepType.pour := by
  intro n
  induction n with
  | zero => intro t; rfl
  | succ k ih =>
    intro t
    simp only [RecipeUtils.pourLoop, List.map_cons, ih, List.replicate_succ]
    rfl

theorem pourLoop_times (w r dt : ℚ) (hdt : 0 < dt) :
    ∀ (n : ℕ) (t : ℚ),
      ((RecipeUtils.pourLoop w r dt n t).1.map Step.targetTimeInSeconds
          ++ [(RecipeUtils.pourLoop w r dt n t).2]).head? = some t
      ∧ List.Chain' (· < ·) ((RecipeUtils.pourLoop w r dt n t).1.map Step.targetTimeInSeconds
          ++ [(RecipeUtils.pourLoop w r dt n t).2]) := by
  intro n
  induction n with
  | zero =>
    intro t
    refine ⟨rfl, ?_⟩
    show List.Chain' (· < ·) [t]
    simp
  | succ k ih =>
    intro t
    have hk := ih (t + dt)
    have hlist : (RecipeUtils.pourLoop w r dt (k + 1) t).1.map Step.targetTimeInSeconds
        ++ [(RecipeUtils.pourLoop w r dt (k + 1) t).2]
        = t :: ((RecipeUtils.pourLoop w r dt k (t + dt)).1.map Step.targetTimeInSeconds
          ++ [(RecipeUtils.pourLoop w r dt k (t + dt)).2]) := rfl
    rw [hlist]
    refine ⟨rfl, List.chain'_cons'.mpr ⟨?_, hk.2⟩⟩
    intro y hy
    rw [hk.1] at hy
    rw [Option.mem_some_iff] at hy
    subst hy
    linarith

/-- Shape of the legacy step list: types and weights. -/
theorem legacySteps_shape (ww bw br : ℚ) (p : ℕ) :
    (RecipeUtils.createLegacySteps ww bw br p).map Step.targetWeight
      = bw :: (List.replicate p ((jsRound ((ww - bw) / (p : ℚ)) : ℤ) : ℚ) ++ [0])
    ∧ (RecipeUtils.createLegacySteps ww bw br p).map Step.type
      = StepType.bloom :: (List.replicate p .pour ++ [.drawdown]) := by
  constructor <;>
    simp [RecipeUtils.createLegacySteps, RecipeUtils.createStep, pourLoop_weights,
      pourLoop_types]

/-- Shape of the basic-mode step list (for `pours > 0`): types and weights. -/
theorem basicSteps_shape (ww bw br tbs : ℚ) (p : ℕ) (hp : 0 < p) :
    (RecipeUtils.createBasicModeSteps ww bw br p tbs).map Step.targetWeight
      = bw :: (List.replicate p ((jsRound ((ww - bw) / (p : ℚ)) : ℤ) : ℚ) ++ [0])
    ∧ (RecipeUtils.createBasicModeSteps ww bw br p tbs).map Step.type
      = StepType.bloom :: (List.replicate p .pour ++ [.drawdown]) := by
  constructor <;>
    simp [RecipeUtils.createBasicModeSteps, RecipeUtils.createStep, pourLoop_weights,
      pourLoop_types, hp]

/-- Rounding a per-pour share keeps the reassembled total within `p/2` grams. -/
theorem conservation_bound (R : ℚ) (p : ℕ) (hp : 1 ≤ p) :
    |(p : ℚ) * ((jsRound (R / (p : ℚ)) : ℤ) : ℚ) - R| ≤ (p : ℚ) / 2 := by
  have hp' : (0 : ℚ) < (p : ℚ) := by exact_mod_cast hp
  have h1 := jsRound_le (R / (p : ℚ))
  have h2 := lt_jsRound (R / (p : ℚ))
  have hRp : (p : ℚ) * (R / (p : ℚ)) = R := by field_simp
  have e1 : (p : ℚ) * ((jsRound (R / (p : ℚ)) : ℤ) : ℚ) ≤ (p : ℚ) * (R / (p : ℚ) + 1/2) :=
    mul_le_mul_of_nonneg_left h1 (le_of_lt hp')
  have e2 : (p : ℚ) * (R / (p : ℚ) - 1/2) ≤ (p : ℚ) * ((jsRound (R / (p : ℚ)) : ℤ) : ℚ) :=
    mul_le_mul_of_nonneg_left (le_of_lt h2) (le_of_lt hp')
  rw [mul_add, hRp] at e1
  rw [mul_sub, hRp] at e2
  rw [abs_le]
  constructor <;> linarith

/-- Head, last and strict time chain of an assembled
`bloom :: pours ++ [drawdown]` sequence when the pour spacing is positive. -/
theorem assembled_wellFormed (w r dt bw br : ℚ) (hdt : 0 < dt) (p : ℕ) :
    ((RecipeUtils.createStep .bloom 0 bw br
        :: (RecipeUtils.pourLoop w r dt p DEFAULT_BLOOM_TIME).1)
      ++ [RecipeUtils.createStep .drawdown
           (RecipeUtils.pourLoop w r dt p DEFAULT_BLOOM_TIME).2 0 0]).head?.map
        Step.targetTimeInSeconds = some 0
    ∧ ((RecipeUtils.createStep .bloom 0 bw br
        :: (RecipeUtils.pourLoop w r dt p DEFAULT_BLOOM_TIME).1)
      ++ [RecipeUtils.createStep .drawdown
           (RecipeUtils.pourLoop w r dt p DEFAULT_BLOOM_TIME).2 0 0]).getLast?.map
        Step.targetWeight = some 0
    ∧ List.Chain' (· < ·)
      (((RecipeUtils.createStep .bloom 0 bw br
          :: (RecipeUtils.pourLoop w r dt p DEFAULT_BLOOM_TIME).1)
        ++ [RecipeUtils.createStep .drawdown
             (RecipeUtils.pourLoop w r dt p DEFAULT_BLOOM_TIME).2 0 0]).map
        Step.targetTimeInSeconds) := by
  have h := pourLoop_times w r dt hdt p DEFAULT_BLOOM_TIME
  refine ⟨rfl, ?_, ?_⟩
  · rw [List.getLast?_concat]; rfl
  · simp only [List.map_append, List.map_cons, List.map_nil, List.cons_append,
      RecipeUtils.createStep]
    refine List.chain'_cons'.mpr ⟨?_, h.2⟩
    intro y hy
    rw [h.1, Option.mem_some_iff] at hy
    subst hy
    show (0:ℚ) < DEFAULT_BLOOM_TIME
    norm_num [DEFAULT_BLOOM_TIME]

theorem legacySteps_wellFormed (ww bw br : ℚ) (p : ℕ) :
    StepsWellFormed (RecipeUtils.createLegacySteps ww bw br p) p := by
  have ha := assembled_wellFormed ((jsRound ((ww - bw) / (p : ℚ)) : ℤ) : ℚ)
    ((ww - bw) / (p : ℚ) / ww) (DEFAULT_POUR_TIME + DEFAULT_INTERVAL_BETWEEN_POURS) bw br
    (by norm_num [DEFAULT_POUR_TIME, DEFAULT_INTERVAL_BETWEEN_POURS]) p
  exact ⟨(legacySteps_shape ww bw br p).2, ha.1, ha.2.1, ha.2.2⟩

theorem basicSteps_wellFormed (ww bw br tbs : ℚ) (p : ℕ) (hp : 0 < p)
    (ht : 1 ≤ jsFloorQ ((tbs - DEFAULT_BLOOM_TIME - DEFAULT_DRAWDOWN_TIME) / (p : ℚ))) :
    StepsWellFormed (RecipeUtils.createBasicModeSteps ww bw br p tbs) p := by
  have hdtv : (0 : ℚ) < (if p > 0
      then ((jsFloorQ ((tbs - DEFAULT_BLOOM_TIME - DEFAULT_DRAWDOWN_TIME) / (p : ℚ)) : ℤ) : ℚ)
      else 0) := by
    rw [if_pos hp]
    exact_mod_cast lt_of_lt_of_le Int.zero_lt_one ht
  have ha := assembled_wellFormed
    (if p > 0 then ((jsRound ((ww - bw) / (p : ℚ)) : ℤ) : ℚ) else 0)
    ((ww - bw) / (p : ℚ) / ww)
    (if p > 0
      then ((jsFloorQ ((tbs - DEFAULT_BLOOM_TIME - DEFAULT_DRAWDOWN_TIME) / (p : ℚ)) : ℤ) : ℚ)
      else 0)
    bw br hdtv p
  exact ⟨(basicSteps_shape ww bw br tbs p hp).2, ha.1, ha.2.1, ha.2.2⟩

/-- Weight map of a generated (non-advanced) custom recipe. -/
theorem createCustomRecipe_weightMap (params : CustomRecipeParams)
    (hmode : params.mode.getD .basic = .advanced → params.advancedSteps = none)
    (hp : 1 ≤ params.pours) :
    (RecipeUtils.createCustomRecipe params).steps.map Step.targetWeight
      = bloomWaterOf params :: (List.replicate params.pours (waterPerPourOf params) ++ [0]) := by
  cases hm : params.mode.getD RecipeMode.basic with
  | basic =>
    simp only [RecipeUtils.createCustomRecipe, hm]
    exact (basicSteps_shape _ _ _ _ _ (lt_of_lt_of_le Nat.zero_lt_one hp)).1
  | advanced =>
    simp only [RecipeUtils.createCustomRecipe, hm, hmode hm]
    exact (legacySteps_shape _ _ _ _).1

/-- Type map of a generated (non-advanced) custom recipe. -/
theorem createCustomRecipe_typeMap (params : CustomRecipeParams)
    (hmode : params.mode.getD .basic = .advanced → params.advancedSteps = none)
    (hp : 1 ≤ params.pours) :
    (RecipeUtils.createCustomRecipe params).steps.map Step.type
      = StepType.bloom :: (List.replicate params.pours .pour ++ [.drawdown]) := by
  cases hm : params.mode.getD RecipeMode.basic with
  | basic =>
    simp only [RecipeUtils.createCustomRecipe, hm]
    exact (basicSteps_shape _ _ _ _ _ (lt_of_lt_of_le Nat.zero_lt_one hp)).2
  | advanced =>
    simp only [RecipeUtils.createCustomRecipe, hm, hmode hm]
    exact (legacySteps_shape _ _ _ _).2

/-- C2 — Recipe weight conservation: for every `createCustomRecipe` input
whose steps are generated (basic or legacy mode, i.e. not caller-supplied
advanced steps), with positive water (driven by a positive coffee or water
weight), positive ratio and `pours ≥ 1`, the bloom step's `targetWeight` is
`round(coffeeWeight·bloomMultiplier)`, each of the `pours` pour steps'
`targetWeight` is `round((waterWeight − bloomWeight)/pours)`, and
`|bloomWeight + pours·waterPerPour − waterWeight| ≤ pours` grams. -/
theorem recipe_weight_conservation (params : CustomRecipeParams)
    (hmode : params.mode.getD .basic = .advanced → params.advancedSteps = none)
    (hp : 1 ≤ params.pours)
    (hratio : 0 < params.ratio)
    (hwater : 0 < (RecipeUtils.resolveWeights params).2) :
    (RecipeUtils.createCustomRecipe params).steps.map Step.targetWeight
      = bloomWaterOf params :: (List.replicate params.pours (waterPerPourOf params) ++ [0])
    ∧ |bloomWaterOf params + (params.pours : ℚ) * waterPerPourOf params
        - (RecipeUtils.createCustomRecipe params).waterWeight| ≤ (params.pours : ℚ) := by
  constructor
  · exact createCustomRecipe_weightMap params hmode hp
  · have hb := conservation_bound ((RecipeUtils.resolveWeights params).2 - bloomWaterOf params)
      params.pours hp
    have hww : (RecipeUtils.createCustomRecipe params).waterWeight
        = (RecipeUtils.resolveWeights params).2 := rfl
    rw [hww]
    have harg : bloomWaterOf params + (params.pours : ℚ) * waterPerPourOf params
        - (RecipeUtils.resolveWeights params).2
        = (params.pours : ℚ) * waterPerPourOf params
          - ((RecipeUtils.resolveWeights params).2 - bloomWaterOf params) := by ring
    rw [harg]
    have hp2 : (params.pours : ℚ) / 2 ≤ (params.pours : ℚ) := by
      have h0 : (0:ℚ) ≤ (params.pours : ℚ) := by positivity
      linarith
    exact le_trans hb hp2

theorem recipe_weight_conservation_witness :
    (RecipeUtils.createCustomRecipe conservationParams).steps.map Step.targetWeight
      = bloomWaterOf conservationParams
        :: (List.replicate conservationParams.pours (waterPerPourOf conservationParams) ++ [0])
    ∧ |bloomWaterOf conservationParams
        + (conservationParams.pours : ℚ) * waterPerPourOf conservationParams
        - (RecipeUtils.createCustomRecipe conservationParams).waterWeight|
        ≤ (conservationParams.pours : ℚ)
    ∧ bloomWaterOf conservationParams = 50
    ∧ waterPerPourOf conservationParams = 68
    ∧ (RecipeUtils.createCustomRecipe conservationParams).waterWeight = 320 := by
  have hbw : bloomWaterOf conservationParams = 50 := by
    norm_num [bloomWaterOf, RecipeUtils.resolveWeights, conservationParams, jsOrQ, jsRound]
  have hww : (RecipeUtils.resolveWeights conservationParams).2 = 320 := by
    norm_num [RecipeUtils.resolveWeights, conservationParams, jsOrQ]
  have hwpp : waterPerPourOf conservationParams = 68 := by
    unfold waterPerPourOf
    rw [hww, hbw]
    norm_num [conservationParams, jsRound]
  have h := recipe_weight_conservation conservationParams (by decide) (by decide)
    (by norm_num [conservationParams]) (by rw [hww]; norm_num)
  exact ⟨h.1, h.2, hbw, hwpp, hww⟩

/-- C3 counterexample: with `totalBrewTimeSeconds = 105` in basic mode the
per-pour interval floors to 0, so the pour and the drawdown share
`targetTimeInSeconds = 45` — the sequence is not strictly increasing. -/
theorem step_ordering_counterexample :
    ((RecipeUtils.createCustomRecipe orderingCexParams).steps.map Step.targetTimeInSeconds)
      = [0, 45, 45]
    ∧ ¬ List.Chain' (· < ·)
        ((RecipeUtils.createCustomRecipe orderingCexParams).steps.map Step.targetTimeInSeconds) := by
  have h : ((RecipeUtils.createCustomRecipe orderingCexParams).steps.map Step.targetTimeInSeconds)
      = [0, 45, 45] := by
    norm_num [RecipeUtils.createCustomRecipe, orderingCexParams, RecipeUtils.resolveWeights,
      RecipeUtils.resolveTotalTime, RecipeUtils.createBasicModeSteps, RecipeUtils.pourLoop,
      RecipeUtils.createStep, jsOrQ, jsFloorQ, jsRound, DEFAULT_BLOOM_TIME,
      DEFAULT_DRAWDOWN_TIME, DEFAULT_POUR_TIME, DEFAULT_INTERVAL_BETWEEN_POURS]
  refine ⟨h, ?_⟩
  rw [h]
  norm_num [List.chain'_cons]

/-- C3 (amended) — Step ordering invariant: for every `pours ≥ 1`, the
generated sequence is bloom (at time 0) first, then `pours` pour steps, then
a terminal drawdown of weight 0, with strictly increasing
`targetTimeInSeconds` — in legacy mode unconditionally, and in basic mode
whenever the per-pour interval
`floor((totalBrewTimeSeconds − 105)/pours)` is at least 1 second (true in
particular for the default time budget); advanced mode passes the
caller-supplied steps through unconstrained and is excluded. -/
theorem step_ordering (params : CustomRecipeParams) (hp : 1 ≤ params.pours) :
    (params.mode.getD .basic = .basic →
      1 ≤ jsFloorQ ((RecipeUtils.resolveTotalTime params - DEFAULT_BLOOM_TIME
          - DEFAULT_DRAWDOWN_TIME) / (params.pours : ℚ)) →
      StepsWellFormed (RecipeUtils.createCustomRecipe params).steps params.pours)
    ∧ (params.mode.getD .basic = .advanced → params.advancedSteps = none →
      StepsWellFormed (RecipeUtils.createCustomRecipe params).steps params.pours) := by
  constructor
  · intro hm ht
    simp only [RecipeUtils.createCustomRecipe, hm]
    exact basicSteps_wellFormed _ _ _ _ _ (lt_of_lt_of_le Nat.zero_lt_one hp) ht
  · intro hm hadv
    simp only [RecipeUtils.createCustomRecipe, hm, hadv]
    exact legacySteps_wellFormed _ _ _ _

theorem step_ordering_witness :
    (1 ≤ orderingParams.pours)
    ∧ orderingParams.mode.getD .basic = .basic
    ∧ 1 ≤ jsFloorQ ((RecipeUtils.resolveTotalTime orderingParams - DEFAULT_BLOOM_TIME
        - DEFAULT_DRAWDOWN_TIME) / (orderingParams.pours : ℚ))
    ∧ StepsWellFormed (RecipeUtils.createCustomRecipe orderingParams).steps
        orderingParams.pours := by
  have ht : 1 ≤ jsFloorQ ((RecipeUtils.resolveTotalTime orderingParams - DEFAULT_BLOOM_TIME
      - DEFAULT_DRAWDOWN_TIME) / (orderingParams.pours : ℚ)) := by
    norm_num [RecipeUtils.resolveTotalTime, orderingParams, jsFloorQ, DEFAULT_BLOOM_TIME,
      DEFAULT_DRAWDOWN_TIME, DEFAULT_POUR_TIME, DEFAULT_INTERVAL_BETWEEN_POURS]
  exact ⟨by decide, by decide, ht, (step_ordering orderingParams (by decide)).1 (by decide) ht⟩

theorem jsRound_nonneg_of_half {x : ℚ} (h : -(1/2) ≤ x) : 0 ≤ jsRound x := by
  unfold jsRound
  exact Int.floor_nonneg.mpr (by linarith)

/-- C10 counterexamples: a water-driven input (`waterWeight 10, ratio 16,
bloomMultiplier 16 ≤ ratio, pours 1`) yields a pour step of −6 g, and a
coffee-driven input with `bloomMultiplier = −5 ≤ ratio` yields a bloom step
of −100 g — so the claim as stated (any `bloomMultiplier ≤ ratio`, either
driving weight) is false. -/
theorem nonNegative_step_weights_counterexample :
    (RecipeUtils.createCustomRecipe waterModeCexParams).steps.map Step.targetWeight
      = [16, -6, 0]
    ∧ ¬ (∀ w ∈ (RecipeUtils.createCustomRecipe waterModeCexParams).steps.map
          Step.targetWeight, (0:ℚ) ≤ w)
    ∧ (RecipeUtils.createCustomRecipe negBloomCexParams).steps.map Step.targetWeight
      = [-100, 420, 0]
    ∧ ¬ (∀ w ∈ (RecipeUtils.createCustomRecipe negBloomCexParams).steps.map
          Step.targetWeight, (0:ℚ) ≤ w) := by
  have h1 : (RecipeUtils.createCustomRecipe waterModeCexParams).steps.map Step.targetWeight
      = [16, -6, 0] := by
    norm_num [RecipeUtils.createCustomRecipe, waterModeCexParams, RecipeUtils.resolveWeights,
      RecipeUtils.resolveTotalTime, RecipeUtils.createBasicModeSteps, RecipeUtils.pourLoop,
      RecipeUtils.createStep, jsOrQ, jsFloorQ, jsRound, DEFAULT_BLOOM_TIME,
      DEFAULT_DRAWDOWN_TIME, DEFAULT_POUR_TIME, DEFAULT_INTERVAL_BETWEEN_POURS]
  have h2 : (RecipeUtils.createCustomRecipe negBloomCexParams).steps.map Step.targetWeight
      = [-100, 420, 0] := by
    norm_num [RecipeUtils.createCustomRecipe, negBloomCexParams, RecipeUtils.resolveWeights,
      RecipeUtils.resolveTotalTime, RecipeUtils.createBasicModeSteps, RecipeUtils.pourLoop,
      RecipeUtils.createStep, jsOrQ, jsFloorQ, jsRound, DEFAULT_BLOOM_TIME,
      DEFAULT_DRAWDOWN_TIME, DEFAULT_POUR_TIME, DEFAULT_INTERVAL_BETWEEN_POURS]
  refine ⟨h1, ?_, h2, ?_⟩
  · intro hall
    rw [h1] at hall
    have := hall (-6) (by norm_num)
    linarith
  · intro hall
    rw [h2] at hall
    have := hall (-100) (by norm_num)
    linarith

/-- C10 (amended) — non-negative step weights: `createCustomRecipe` performs
no input validation, so the guarantee needs hypotheses: for a coffee-driven
input with generated (non-advanced) steps, positive coffee weight, positive
ratio, `pours ≥ 1` and `0 ≤ bloomMultiplier ≤ ratio`, every generated step's
`targetWeight` is non-negative and the terminal drawdown's is exactly 0.
(Water-driven inputs and negative multipliers break the guarantee — see the
counterexample.) -/
theorem nonNegative_step_weights (params : CustomRecipeParams)
    (hcoffee : params.inputMode.getD .coffee = .coffee)
    (hmode : params.mode.getD .basic = .advanced → params.advancedSteps = none)
    (hp : 1 ≤ params.pours)
    (hcw : 0 < jsOrQ params.coffeeWeight 20)
    (hratio : 0 < params.ratio)
    (hbm0 : 0 ≤ params.bloomMultiplier.getD 3)
    (hbmr : params.bloomMultiplier.getD 3 ≤ params.ratio) :
    (∀ w ∈ (RecipeUtils.createCustomRecipe params).steps.map Step.targetWeight, (0:ℚ) ≤ w)
    ∧ (RecipeUtils.createCustomRecipe params).steps.getLast?.map Step.targetWeight = some 0
    ∧ (RecipeUtils.createCustomRecipe params).steps.map Step.type
        = StepType.bloom :: (List.replicate params.pours .pour ++ [.drawdown]) := by
  have hr1 : (RecipeUtils.resolveWeights params).1 = jsOrQ params.coffeeWeight 20 := by
    unfold RecipeUtils.resolveWeights
    rw [hcoffee]
  have hr2 : (RecipeUtils.resolveWeights params).2
      = jsOrQ params.coffeeWeight 20 * params.ratio := by
    unfold RecipeUtils.resolveWeights
    rw [hcoffee]
  have hbw0 : 0 ≤ bloomWaterOf params := by
    unfold bloomWaterOf
    rw [hr1]
    have : (0:ℚ) ≤ jsOrQ params.coffeeWeight 20 * params.bloomMultiplier.getD 3 :=
      mul_nonneg (le_of_lt hcw) hbm0
    exact_mod_cast jsRound_nonneg this
  have hbwle : bloomWaterOf params ≤ jsOrQ params.coffeeWeight 20 * params.ratio + 1/2 := by
    unfold bloomWaterOf
    rw [hr1]
    have h1 := jsRound_le (jsOrQ params.coffeeWeight 20 * params.bloomMultiplier.getD 3)
    have h2 : jsOrQ params.coffeeWeight 20 * params.bloomMultiplier.getD 3
        ≤ jsOrQ params.coffeeWeight 20 * params.ratio :=
      mul_le_mul_of_nonneg_left hbmr (le_of_lt hcw)
    linarith
  have hwpp0 : 0 ≤ waterPerPourOf params := by
    unfold waterPerPourOf
    rw [hr2]
    have hp' : (0:ℚ) < (params.pours : ℚ) := by exact_mod_cast lt_of_lt_of_le Nat.zero_lt_one hp
    have hp1 : (1:ℚ) ≤ (params.pours : ℚ) := by exact_mod_cast hp
    have hR : -((params.pours : ℚ)) * (1/2)
        ≤ jsOrQ params.coffeeWeight 20 * params.ratio - bloomWaterOf params := by
      nlinarith
    have hdiv : -(1/2) ≤ (jsOrQ params.coffeeWeight 20 * params.ratio - bloomWaterOf params)
        / (params.pours : ℚ) := by
      rw [le_div_iff hp']
      linarith
    exact_mod_cast jsRound_nonneg_of_half hdiv
  refine ⟨?_, ?_, createCustomRecipe_typeMap params hmode hp⟩
  · intro w hw
    rw [createCustomRecipe_weightMap params hmode hp] at hw
    rcases List.mem_cons.mp hw with h | h
    · rw [h]; exact hbw0
    · rcases List.mem_append.mp h with h | h
      · rw [List.eq_of_mem_replicate h]; exact hwpp0
      · simp at h; rw [h]
  · rw [← List.getLast?_map, createCustomRecipe_weightMap params hmode hp]
    rw [show bloomWaterOf params :: (List.replicate params.pours (waterPerPourOf params) ++ [0])
        = (bloomWaterOf params :: List.replicate params.pours (waterPerPourOf params))
          ++ [(0:ℚ)] from rfl]
    rw [List.getLast?_concat]

theorem nonNegative_step_weights_witness :
    (∀ w ∈ (RecipeUtils.createCustomRecipe nonNegParams).steps.map Step.targetWeight, (0:ℚ) ≤ w)
    ∧ (RecipeUtils.createCustomRecipe nonNegParams).steps.getLast?.map Step.targetWeight = some 0
    ∧ (RecipeUtils.createCustomRecipe nonNegParams).steps.map Step.type
        = StepType.bloom :: (List.replicate nonNegParams.pours .pour ++ [.drawdown]) :=
  nonNegative_step_weights nonNegParams (by decide) (by decide) (by decide)
    (by norm_num [jsOrQ, nonNegParams]) (by norm_num [nonNegParams])
    (by norm_num [nonNegParams]) (by norm_num [nonNegParams])

theorem map_comp_congr {α β γ : Type} (l : List α) (f : α → β) (g : β → γ) (h : α → γ)
    (hfg : ∀ a ∈ l, g (f a) = h a) : (l.map f).map g = l.map h := by
  induction l with
  | nil => rfl
  | cons x xs ih =>
    simp only [List.map_cons]
    rw [hfg x (by simp), ih (fun a ha => hfg a (by simp [ha]))]

/-- C8 — Rescale idempotence on ratio: rescaling a recipe to its own water
weight leaves the step count, every step's type and `targetTimeInSeconds`,
and the recipe's water weight unchanged (unconditionally, modulo the fresh
ids the model omits); and whenever the recipe's weights are consistent with
its stored ratios (`coffeeWeight = round(waterWeight/ratio)`, bloom weights
`round(coffeeWeight·targetRatio)`, pour weights
`round(waterWeight·targetRatio)` — i.e. "within rounding" of the Recipe
invariant), the step weights are reproduced exactly. -/
theorem rescale_idempotent (r : Recipe) :
    ((RecipeUtils.calculateRecipeWithCustomWater r ⟨r.waterWeight⟩).steps.map Step.type
        = r.steps.map Step.type
      ∧ (RecipeUtils.calculateRecipeWithCustomWater r ⟨r.waterWeight⟩).steps.map
          Step.targetTimeInSeconds = r.steps.map Step.targetTimeInSeconds
      ∧ (RecipeUtils.calculateRecipeWithCustomWater r ⟨r.waterWeight⟩).steps.length
          = r.steps.length
      ∧ (RecipeUtils.calculateRecipeWithCustomWater r ⟨r.waterWeight⟩).waterWeight
          = r.waterWeight)
    ∧ (r.coffeeWeight = ((jsRound (r.waterWeight / r.ratio) : ℤ) : ℚ) →
       (∀ s ∈ r.steps,
         (s.type = .bloom →
           s.targetWeight = ((jsRound (r.coffeeWeight * s.targetRatio) : ℤ) : ℚ))
         ∧ (s.type = .pour →
           s.targetWeight = ((jsRound (r.waterWeight * s.targetRatio) : ℤ) : ℚ))) →
       (RecipeUtils.calculateRecipeWithCustomWater r ⟨r.waterWeight⟩).steps.map
         Step.targetWeight = r.steps.map Step.targetWeight) := by
  have hsteps : (RecipeUtils.calculateRecipeWithCustomWater r ⟨r.waterWeight⟩).steps
      = r.steps.map (fun step =>
          match step.type with
          | .bloom => { step with targetWeight :=
              ((jsRound (((jsRound (r.waterWeight / r.ratio) : ℤ) : ℚ) * step.targetRatio)
                : ℤ) : ℚ) }
          | .pour => { step with targetWeight :=
              ((jsRound (r.waterWeight * step.targetRatio) : ℤ) : ℚ) }
          | .drawdown => step) := rfl
  refine ⟨⟨?_, ?_, ?_, rfl⟩, ?_⟩
  · rw [hsteps]
    refine map_comp_congr _ _ _ _ ?_
    intro s _
    cases h : s.type <;> simp [h]
  · rw [hsteps]
    refine map_comp_congr _ _ _ _ ?_
    intro s _
    cases h : s.type <;> simp [h]
  · rw [hsteps]
    simp only [List.length_map]
  · intro hcoffee hcons
    rw [hsteps]
    refine map_comp_congr _ _ _ _ ?_
    intro s hs
    rcases hcons s hs with ⟨hb, hpo⟩
    cases h : s.type with
    | bloom =>
      simp only [h]
      rw [← hcoffee]
      exact (hb h).symm
    | pour =>
      simp only [h]
      exact (hpo h).symm
    | drawdown => simp [h]

theorem rescale_idempotent_witness :
    lowKeyRecipe.coffeeWeight
      = ((jsRound (lowKeyRecipe.waterWeight / lowKeyRecipe.ratio) : ℤ) : ℚ)
    ∧ (RecipeUtils.calculateRecipeWithCustomWater lowKeyRecipe
        ⟨lowKeyRecipe.waterWeight⟩).steps.map Step.targetWeight
        = lowKeyRecipe.steps.map Step.targetWeight
    ∧ (RecipeUtils.calculateRecipeWithCustomWater lowKeyRecipe
        ⟨lowKeyRecipe.waterWeight⟩).steps.map Step.targetTimeInSeconds
        = lowKeyRecipe.steps.map Step.targetTimeInSeconds := by
  have hc : lowKeyRecipe.coffeeWeight
      = ((jsRound (lowKeyRecipe.waterWeight / lowKeyRecipe.ratio) : ℤ) : ℚ) := by
    norm_num [lowKeyRecipe, jsRound]
  refine ⟨hc, (rescale_idempotent lowKeyRecipe).2 hc ?_,
    (rescale_idempotent lowKeyRecipe).1.2.1⟩
  intro s hs
  fin_cases hs <;> refine ⟨fun h => ?_, fun h => ?_⟩ <;>
    first
      | exact absurd h (by decide)
      | norm_num [lowKeyRecipe, jsRound]

/-- C5 counterexample: the `coffee-utils.ts` `queryMicrons` performs no
out-of-range validation — a target of 5000 μm against a grinder declaring
`[200, 1200]` succeeds and still computes a (clamped) interpolated setting. -/
theorem queryMicrons_noRangeCheck_counterexample :
    (CoffeeUtils.queryMicrons rangeCheckCatalog rangeCheckQuery).isOk = true
    ∧ (CoffeeUtils.queryMicrons rangeCheckCatalog rangeCheckQuery).toOption.map
        QueryResult.calculated_setting = some (some (JsValue.num 15)) := by
  constructor <;> decide

/-- C5 (amended) — the repository's two query paths diverge: the
`unnamed/part_000` `queryMicrons` hard-fails with the OutOfRange error for
every matched grinder with non-null `min_microns`/`max_microns` and every
target strictly outside `[min_microns, max_microns]` (this theorem), while
the `src/lib/coffee-utils.ts` `queryMicrons` omits the check entirely and
proceeds to compute a setting (the counterexample). -/
theorem part000_queryMicrons_outOfRange (data : CoffeeData) (params : QueryParams)
    (g : Grinder) (mn mx : ℚ)
    (hfind : data.grinders.find? (fun gr => lowerIncludes gr.name params.grinderName) = some g)
    (hmn : g.min_microns = some mn) (hmx : g.max_microns = some mx)
    (hout : params.targetMicrons < mn ∨ mx < params.targetMicrons) :
    Part000.queryMicrons data params
      = Except.error (QueryError.outOfRange params.targetMicrons mn mx) := by
  unfold Part000.queryMicrons
  simp only [hfind, hmn, hmx]
  rw [if_pos hout]

theorem part000_queryMicrons_outOfRange_witness :
    rangeCheckCatalog.grinders.find?
        (fun gr => lowerIncludes gr.name rangeCheckQuery.grinderName) = some rangeCheckGrinder
    ∧ rangeCheckGrinder.min_microns = some 200
    ∧ rangeCheckGrinder.max_microns = some 1200
    ∧ (1200 : ℚ) < rangeCheckQuery.targetMicrons
    ∧ Part000.queryMicrons rangeCheckCatalog rangeCheckQuery
        = Except.error (QueryError.outOfRange rangeCheckQuery.targetMicrons 200 1200) :=
  ⟨by decide, by decide, by decide, by decide,
   part000_queryMicrons_outOfRange rangeCheckCatalog rangeCheckQuery rangeCheckGrinder
     200 1200 (by decide) (by decide) (by decide) (Or.inr (by decide))⟩

theorem mapMicrons_clampLow (m mn mx cpn : ℚ) (minS maxS : JsValue) (fmt : SettingFormat)
    (h : m ≤ mn) :
    CoffeeUtils.mapMicronsToSetting m minS maxS mn mx fmt cpn = some minS := by
  unfold CoffeeUtils.mapMicronsToSetting
  rw [if_pos h]

theorem mapMicrons_clampHigh (m mn mx cpn : ℚ) (minS maxS : JsValue) (fmt : SettingFormat)
    (h1 : ¬ m ≤ mn) (h2 : mx ≤ m) :
    CoffeeUtils.mapMicronsToSetting m minS maxS mn mx fmt cpn = some maxS := by
  unfold CoffeeUtils.mapMicronsToSetting
  rw [if_neg h1, if_pos h2]

theorem mapMicrons_simple_inRange (m mn mx cpn : ℚ) (minS maxS : JsValue) (a b : ℚ)
    (hmn : mn < m) (hmx : m < mx)
    (ha : settingToNum minS = some a) (hb : settingToNum maxS = some b) :
    CoffeeUtils.mapMicronsToSetting m minS maxS mn mx .simple cpn
      = some (.num ((jsRound (a + (m - mn) / (mx - mn) * (b - a)) : ℤ) : ℚ)) := by
  have h3 : ¬ (mx - mn ≤ 0) := by linarith
  simp only [CoffeeUtils.mapMicronsToSetting, if_neg (not_le.mpr hmn), if_neg (not_le.mpr hmx),
    if_neg h3, ha, hb]

/-- The clamp-then-interpolate value, as an integer, is monotone in the
micron input when the integer endpoint values are ordered. -/
theorem clampInterp_mono (mn mx m1 m2 : ℚ) (A B : ℤ) (hrange : mn < mx) (hAB : A ≤ B)
    (hm : m1 < m2) :
    (if m1 ≤ mn then A else if mx ≤ m1 then B
      else jsRound ((A : ℚ) + (m1 - mn) / (mx - mn) * ((B : ℚ) - (A : ℚ))))
    ≤ (if m2 ≤ mn then A else if mx ≤ m2 then B
      else jsRound ((A : ℚ) + (m2 - mn) / (mx - mn) * ((B : ℚ) - (A : ℚ)))) := by
  have hd : (0 : ℚ) < mx - mn := by linarith
  have hABq : (A : ℚ) ≤ (B : ℚ) := by exact_mod_cast hAB
  by_cases h1 : m1 ≤ mn
  · rw [if_pos h1]
    by_cases h2 : m2 ≤ mn
    · rw [if_pos h2]
    · rw [if_neg h2]
      by_cases h3 : mx ≤ m2
      · rw [if_pos h3]; exact hAB
      · rw [if_neg h3]
        have hr0 : 0 ≤ (m2 - mn) / (mx - mn) := by
          apply div_nonneg _ (le_of_lt hd)
          push_neg at h2
          linarith
        have harg : (A : ℚ) ≤ (A : ℚ) + (m2 - mn) / (mx - mn) * ((B : ℚ) - (A : ℚ)) := by
          nlinarith
        calc A = jsRound ((A : ℚ)) := (jsRound_intCast A).symm
        _ ≤ _ := jsRound_mono harg
  · rw [if_neg h1]
    push_neg at h1
    by_cases h3 : mx ≤ m1
    · rw [if_pos h3, if_neg (show ¬ m2 ≤ mn by push_neg; linarith),
        if_pos (show mx ≤ m2 by linarith)]
    · rw [if_neg h3]
      push_neg at h3
      have h2' : ¬ m2 ≤ mn := by push_neg; linarith
      rw [if_neg h2']
      by_cases h4 : mx ≤ m2
      · rw [if_pos h4]
        have hr1 : (m1 - mn) / (mx - mn) ≤ 1 := by
          rw [div_le_one hd]; linarith
        have hr0 : 0 ≤ (m1 - mn) / (mx - mn) := by
          apply div_nonneg _ (le_of_lt hd); linarith
        have harg : (A : ℚ) + (m1 - mn) / (mx - mn) * ((B : ℚ) - (A : ℚ)) ≤ (B : ℚ) := by
          nlinarith
        calc jsRound ((A : ℚ) + (m1 - mn) / (mx - mn) * ((B : ℚ) - (A : ℚ)))
            ≤ jsRound ((B : ℚ)) := jsRound_mono harg
        _ = B := jsRound_intCast B
      · rw [if_neg h4]
        push_neg at h4
        have hrr : (m1 - mn) / (mx - mn) ≤ (m2 - mn) / (mx - mn) :=
          (div_le_div_right hd).mpr (by linarith)
        exact jsRound_mono (by nlinarith)

/-- Value (as a number) of the simple-format interpolation result at any
micron input, as a clamp-then-round integer expression. -/
theorem simpleVal_eq (mn mx m cpn : ℚ) (minS maxS : JsValue) (za zb : ℤ)
    (ha : settingToNum minS = some (za : ℚ)) (hb : settingToNum maxS = some (zb : ℚ)) :
    (CoffeeUtils.mapMicronsToSetting m minS maxS mn mx .simple cpn).bind settingToNum
      = some (((if m ≤ mn then za else if mx ≤ m then zb
          else jsRound ((za : ℚ) + (m - mn) / (mx - mn) * ((zb : ℚ) - (za : ℚ)))) : ℤ) : ℚ) := by
  by_cases h1 : m ≤ mn
  · rw [mapMicrons_clampLow m mn mx cpn minS maxS .simple h1, if_pos h1]
    simpa using ha
  · by_cases h2 : mx ≤ m
    · rw [mapMicrons_clampHigh m mn mx cpn minS maxS .simple h1 h2, if_neg h1, if_pos h2]
      simpa using hb
    · push_neg at h1 h2
      rw [mapMicrons_simple_inRange m mn mx cpn minS maxS _ _ h1 h2 ha hb,
        if_neg (not_le.mpr h1), if_neg (not_le.mpr h2)]
      rfl

theorem digit_ne_dot {c : Char} (h : c.isDigit = true) : c ≠ '.' := by
  intro hc; subst hc; exact absurd h (by decide)

theorem natToChars_no_dot (n : ℕ) : ∀ c ∈ natToChars n, c ≠ '.' :=
  fun c hc => digit_ne_dot (natToChars_isDigit n c hc)

theorem parse_out3 (k : ℕ) (r n c : ℤ) (hr : 0 ≤ r) (hn : 0 ≤ n) (hc : 0 ≤ c) :
    CoffeeUtils.parseComplexSetting (k : ℚ)
        (.str (intToChars r ++ '.' :: (intToChars n ++ '.' :: intToChars c)))
      = some (r, n, c, (r : ℚ) * 10 * (k : ℚ) + (n : ℚ) * (k : ℚ) + (c : ℚ)) := by
  unfold CoffeeUtils.parseComplexSetting
  have hv : jsValueToChars (.str (intToChars r ++ '.' :: (intToChars n ++ '.' :: intToChars c)))
      = intToChars r ++ '.' :: (intToChars n ++ '.' :: intToChars c) := rfl
  rw [hv, intToChars_nonneg r hr, intToChars_nonneg n hn, intToChars_nonneg c hc,
    splitOnChar_append '.' _ _ (natToChars_no_dot _),
    splitOnChar_append '.' _ _ (natToChars_no_dot _),
    splitOnChar_no_sep '.' _ (natToChars_no_dot _)]
  simp only [jsParseInt_natToChars, Int.natAbs_of_nonneg hr, Int.natAbs_of_nonneg hn,
    Int.natAbs_of_nonneg hc]

theorem parse_out2 (k : ℕ) (r c : ℤ) (hr : 0 ≤ r) (hc : 0 ≤ c) :
    CoffeeUtils.parseComplexSetting (k : ℚ) (.str (intToChars r ++ '.' :: intToChars c))
      = some (r, 0, c, (r : ℚ) * 10 * (k : ℚ) + (c : ℚ)) := by
  unfold CoffeeUtils.parseComplexSetting
  have hv : jsValueToChars (.str (intToChars r ++ '.' :: intToChars c))
      = intToChars r ++ '.' :: intToChars c := rfl
  rw [hv, intToChars_nonneg r hr, intToChars_nonneg c hc,
    splitOnChar_append '.' _ _ (natToChars_no_dot _),
    splitOnChar_no_sep '.' _ (natToChars_no_dot _)]
  simp only [jsParseInt_natToChars, Int.natAbs_of_nonneg hr, Int.natAbs_of_nonneg hc]

/-- Decomposition of a non-negative integer click-equivalent by the
`Math.floor` / `%` expressions of the complex re-expansion, with the exact
recomposition identity. -/
theorem complexParts (tv : ℤ) (k : ℕ) (htv : 0 ≤ tv) (hk : 0 < k) :
    ∃ rot rc num cl : ℤ,
      0 ≤ rot ∧ 0 ≤ rc ∧ 0 ≤ num ∧ 0 ≤ cl
      ∧ jsFloorQ ((tv : ℚ) / (10 * (k : ℚ))) = rot
      ∧ jsModQ (tv : ℚ) (10 * (k : ℚ)) = (rc : ℚ)
      ∧ jsFloorQ ((rc : ℚ) / (k : ℚ)) = num
      ∧ jsModQ ((rc : ℚ)) ((k : ℚ)) = (cl : ℚ)
      ∧ rot * 10 * k + num * k + cl = tv
      ∧ num * k + cl = rc := by
  have hkq : (0 : ℚ) < (k : ℚ) := by exact_mod_cast hk
  have hD : (0 : ℚ) < 10 * (k : ℚ) := by linarith
  have htvq : (0 : ℚ) ≤ (tv : ℚ) := by exact_mod_cast htv
  set rot := ⌊(tv : ℚ) / (10 * (k : ℚ))⌋ with hrotdef
  have hx0 : (0 : ℚ) ≤ (tv : ℚ) / (10 * (k : ℚ)) := div_nonneg htvq (le_of_lt hD)
  have hrot0 : 0 ≤ rot := Int.floor_nonneg.mpr hx0
  have hfl := Int.floor_le ((tv : ℚ) / (10 * (k : ℚ)))
  have hrotle : (rot : ℚ) * (10 * (k : ℚ)) ≤ (tv : ℚ) := by
    rw [← le_div_iff hD]
    exact hfl
  set rc : ℤ := tv - rot * (10 * k) with hrcdef
  have hrc0 : 0 ≤ rc := by
    have : (0 : ℚ) ≤ (tv : ℚ) - (rot : ℚ) * (10 * (k : ℚ)) := by linarith
    rw [hrcdef]
    exact_mod_cast this
  have hmod1 : jsModQ (tv : ℚ) (10 * (k : ℚ)) = (rc : ℚ) := by
    unfold jsModQ jsTrunc
    rw [if_pos hx0, ← hrotdef, hrcdef]
    push_cast
    ring
  have hrcq0 : (0 : ℚ) ≤ (rc : ℚ) := by exact_mod_cast hrc0
  set num := ⌊(rc : ℚ) / (k : ℚ)⌋ with hnumdef
  have hy0 : (0 : ℚ) ≤ (rc : ℚ) / (k : ℚ) := div_nonneg hrcq0 (le_of_lt hkq)
  have hnum0 : 0 ≤ num := Int.floor_nonneg.mpr hy0
  have hfl2 := Int.floor_le ((rc : ℚ) / (k : ℚ))
  have hnumle : (num : ℚ) * (k : ℚ) ≤ (rc : ℚ) := by
    rw [← le_div_iff hkq]
    exact hfl2
  set cl : ℤ := rc - num * k with hcldef
  have hcl0 : 0 ≤ cl := by
    have : (0 : ℚ) ≤ (rc : ℚ) - (num : ℚ) * (k : ℚ) := by linarith
    rw [hcldef]
    exact_mod_cast this
  have hmod2 : jsModQ ((rc : ℚ)) ((k : ℚ)) = (cl : ℚ) := by
    unfold jsModQ jsTrunc
    rw [if_pos hy0, ← hnumdef, hcldef]
    push_cast
    ring
  refine ⟨rot, rc, num, cl, hrot0, hrc0, hnum0, hcl0, rfl, hmod1, rfl, hmod2, ?_, ?_⟩
  · rw [hcldef, hrcdef]
    ring
  · rw [hcldef]
    ring

theorem qChars_intCast (z : ℤ) : qChars ((z : ℚ)) = intToChars z := by
  unfold qChars
  rw [if_pos (Rat.den_intCast z), Rat.num_intCast]

/-- Click-equivalent value of the complex in-range interpolation result:
clamp-free case, non-negative rounded target. -/
theorem complexVal_inRange (m mn mx : ℚ) (k : ℕ) (minS maxS : JsValue)
    (t1 t2 t3 u1 u2 u3 : ℤ) (A B : ℚ)
    (hmn : mn < m) (hmx : m < mx) (hk : 0 < k)
    (hpa : CoffeeUtils.parseComplexSetting (k : ℚ) minS = some (t1, t2, t3, A))
    (hpb : CoffeeUtils.parseComplexSetting (k : ℚ) maxS = some (u1, u2, u3, B))
    (hlen : (splitOnChar '.' (jsValueToChars minS)).length = 3
          ∨ (splitOnChar '.' (jsValueToChars minS)).length = 2)
    (htv : 0 ≤ jsRound (A + (m - mn) / (mx - mn) * (B - A))) :
    (CoffeeUtils.mapMicronsToSetting m minS maxS mn mx .complex (k : ℚ)).bind
        (clickEquiv (k : ℚ))
      = some ((jsRound (A + (m - mn) / (mx - mn) * (B - A)) : ℤ) : ℚ) := by
  have h3 : ¬ (mx - mn ≤ 0) := by linarith
  obtain ⟨rot, rc, num, cl, hrot0, hrc0, hnum0, hcl0, hflo1, hmod1, hflo2, hmod2, hrec, hrc⟩ :=
    complexParts (jsRound (A + (m - mn) / (mx - mn) * (B - A))) k htv hk
  rcases hlen with hl | hl
  · have hres : CoffeeUtils.mapMicronsToSetting m minS maxS mn mx .complex (k : ℚ)
        = some (.str (intToChars rot ++ '.' :: (intToChars num ++ '.' :: intToChars cl))) := by
      simp only [CoffeeUtils.mapMicronsToSetting, if_neg (not_le.mpr hmn),
        if_neg (not_le.mpr hmx), if_neg h3, hpa, hpb, hl, if_true, reduceIte,
        hflo1, hmod1, hflo2, hmod2, qChars_intCast]
      simp [List.append_assoc, List.cons_append]
    rw [hres]
    show clickEquiv (k : ℚ) (.str (intToChars rot ++ '.' :: (intToChars num ++ '.' :: intToChars cl)))
        = some ((jsRound (A + (m - mn) / (mx - mn) * (B - A)) : ℤ) : ℚ)
    unfold clickEquiv
    rw [parse_out3 k rot num cl hrot0 hnum0 hcl0]
    simp only [Option.map_some']
    congr 1
    exact_mod_cast congrArg (fun z : ℤ => (z : ℚ)) hrec
  · have hres : CoffeeUtils.mapMicronsToSetting m minS maxS mn mx .complex (k : ℚ)
        = some (.str (intToChars rot ++ '.' :: intToChars rc)) := by
      simp only [CoffeeUtils.mapMicronsToSetting, if_neg (not_le.mpr hmn),
        if_neg (not_le.mpr hmx), if_neg h3, hpa, hpb, hl, if_true, reduceIte,
        hflo1, hmod1, qChars_intCast]
      simp [List.append_assoc, List.cons_append]
    rw [hres]
    show clickEquiv (k : ℚ) (.str (intToChars rot ++ '.' :: intToChars rc))
        = some ((jsRound (A + (m - mn) / (mx - mn) * (B - A)) : ℤ) : ℚ)
    unfold clickEquiv
    rw [parse_out2 k rot rc hrot0 hrc0]
    simp only [Option.map_some']
    congr 1
    have hrec2 : rot * 10 * (k : ℤ) + rc = jsRound (A + (m - mn) / (mx - mn) * (B - A)) := by
      omega
    exact_mod_cast congrArg (fun z : ℤ => (z : ℚ)) hrec2

/-- Click-equivalent value of the complex result at any micron input, as a
clamp-then-round integer expression. -/
theorem complexVal_eq (mn mx m : ℚ) (k : ℕ) (minS maxS : JsValue)
    (t1 t2 t3 u1 u2 u3 A B : ℤ)
    (hrange : mn < mx) (hk : 0 < k)
    (hpa : CoffeeUtils.parseComplexSetting (k : ℚ) minS = some (t1, t2, t3, (A : ℚ)))
    (hpb : CoffeeUtils.parseComplexSetting (k : ℚ) maxS = some (u1, u2, u3, (B : ℚ)))
    (hA0 : 0 ≤ A) (hAB : A ≤ B)
    (hlen : (splitOnChar '.' (jsValueToChars minS)).length = 3
          ∨ (splitOnChar '.' (jsValueToChars minS)).length = 2) :
    (CoffeeUtils.mapMicronsToSetting m minS maxS mn mx .complex (k : ℚ)).bind
        (clickEquiv (k : ℚ))
      = some (((if m ≤ mn then A else if mx ≤ m then B
          else jsRound ((A : ℚ) + (m - mn) / (mx - mn) * ((B : ℚ) - (A : ℚ)))) : ℤ) : ℚ) := by
  by_cases h1 : m ≤ mn
  · rw [mapMicrons_clampLow m mn mx (k : ℚ) minS maxS .complex h1, if_pos h1]
    show clickEquiv (k : ℚ) minS = some ((A : ℚ))
    unfold clickEquiv
    rw [hpa]
    rfl
  · by_cases h2 : mx ≤ m
    · rw [mapMicrons_clampHigh m mn mx (k : ℚ) minS maxS .complex h1 h2, if_neg h1, if_pos h2]
      show clickEquiv (k : ℚ) maxS = some ((B : ℚ))
      unfold clickEquiv
      rw [hpb]
      rfl
    · push_neg at h1 h2
      have hABq : (A : ℚ) ≤ (B : ℚ) := by exact_mod_cast hAB
      have htv : 0 ≤ jsRound ((A : ℚ) + (m - mn) / (mx - mn) * ((B : ℚ) - (A : ℚ))) := by
        have hr0 : 0 ≤ (m - mn) / (mx - mn) := div_nonneg (by linarith) (by linarith)
        have harg : (A : ℚ) ≤ (A : ℚ) + (m - mn) / (mx - mn) * ((B : ℚ) - (A : ℚ)) := by
          nlinarith
        calc (0 : ℤ) ≤ A := hA0
        _ = jsRound ((A : ℚ)) := (jsRound_intCast A).symm
        _ ≤ _ := jsRound_mono harg
      rw [complexVal_inRange m mn mx k minS maxS t1 t2 t3 u1 u2 u3 (A : ℚ) (B : ℚ)
          h1 h2 hk hpa hpb hlen htv,
        if_neg (not_le.mpr h1), if_neg (not_le.mpr h2)]

/-- C6 — Monotonicity: with fixed valid bounds (`minMicrons < maxMicrons`,
ordered integer-valued settings) and a fixed positive integer
`clicksPerNumber`, `mapMicronsToSetting` is non-decreasing in the micron
input — for simple format comparing the resulting settings as numbers, and
for complex format (with parseable settings of 2 or 3 dotted parts and a
non-negative lower click-equivalent) comparing results by their
click-equivalent values. -/
theorem mapMicronsToSetting_monotone :
    (∀ (mn mx m1 m2 cpn : ℚ) (minS maxS : JsValue) (za zb : ℤ),
      mn < mx →
      settingToNum minS = some ((za : ℤ) : ℚ) →
      settingToNum maxS = some ((zb : ℤ) : ℚ) →
      za ≤ zb → m1 < m2 →
      ∃ v1 v2 : ℚ,
        (CoffeeUtils.mapMicronsToSetting m1 minS maxS mn mx .simple cpn).bind settingToNum
          = some v1
        ∧ (CoffeeUtils.mapMicronsToSetting m2 minS maxS mn mx .simple cpn).bind settingToNum
          = some v2
        ∧ v1 ≤ v2)
    ∧ (∀ (mn mx m1 m2 : ℚ) (k : ℕ) (minS maxS : JsValue)
        (t1 t2 t3 u1 u2 u3 A B : ℤ),
      mn < mx → 0 < k →
      CoffeeUtils.parseComplexSetting (k : ℚ) minS = some (t1, t2, t3, (A : ℚ)) →
      CoffeeUtils.parseComplexSetting (k : ℚ) maxS = some (u1, u2, u3, (B : ℚ)) →
      0 ≤ A → A ≤ B →
      ((splitOnChar '.' (jsValueToChars minS)).length = 3
        ∨ (splitOnChar '.' (jsValueToChars minS)).length = 2) →
      m1 < m2 →
      ∃ v1 v2 : ℚ,
        (CoffeeUtils.mapMicronsToSetting m1 minS maxS mn mx .complex (k : ℚ)).bind
          (clickEquiv (k : ℚ)) = some v1
        ∧ (CoffeeUtils.mapMicronsToSetting m2 minS maxS mn mx .complex (k : ℚ)).bind
          (clickEquiv (k : ℚ)) = some v2
        ∧ v1 ≤ v2) := by
  constructor
  · intro mn mx m1 m2 cpn minS maxS za zb hrange ha hb hab hm
    refine ⟨_, _, simpleVal_eq mn mx m1 cpn minS maxS za zb ha hb,
      simpleVal_eq mn mx m2 cpn minS maxS za zb ha hb, ?_⟩
    exact_mod_cast clampInterp_mono mn mx m1 m2 za zb hrange hab hm
  · intro mn mx m1 m2 k minS maxS t1 t2 t3 u1 u2 u3 A B hrange hk hpa hpb hA0 hAB hlen hm
    refine ⟨_, _,
      complexVal_eq mn mx m1 k minS maxS t1 t2 t3 u1 u2 u3 A B hrange hk hpa hpb hA0 hAB hlen,
      complexVal_eq mn mx m2 k minS maxS t1 t2 t3 u1 u2 u3 A B hrange hk hpa hpb hA0 hAB hlen,
      ?_⟩
    exact_mod_cast clampInterp_mono mn mx m1 m2 A B hrange hAB hm

theorem mapMicronsToSetting_monotone_witness :
    complexMinSetting = JsValue.str ("1.0.0".data)
    ∧ complexMaxSetting = JsValue.str ("2.0.0".data)
    ∧ (∃ v1 v2 : ℚ,
        (CoffeeUtils.mapMicronsToSetting 400 (.num 10) (.num 20) 300 600 .simple 10).bind
          settingToNum = some v1
        ∧ (CoffeeUtils.mapMicronsToSetting 500 (.num 10) (.num 20) 300 600 .simple 10).bind
          settingToNum = some v2
        ∧ v1 ≤ v2)
    ∧ (∃ v1 v2 : ℚ,
        (CoffeeUtils.mapMicronsToSetting 400 complexMinSetting complexMaxSetting 300 600
          .complex ((10 : ℕ) : ℚ)).bind (clickEquiv ((10 : ℕ) : ℚ)) = some v1
        ∧ (CoffeeUtils.mapMicronsToSetting 500 complexMinSetting complexMaxSetting 300 600
          .complex ((10 : ℕ) : ℚ)).bind (clickEquiv ((10 : ℕ) : ℚ)) = some v2
        ∧ v1 ≤ v2) := by
  have hpa : CoffeeUtils.parseComplexSetting ((10 : ℕ) : ℚ) complexMinSetting
      = some (1, 0, 0, ((100 : ℤ) : ℚ)) := by
    rw [show complexMinSetting
        = JsValue.str (intToChars 1 ++ '.' :: (intToChars 0 ++ '.' :: intToChars 0)) from rfl,
      parse_out3 10 1 0 0 (by norm_num) (by norm_num) (by norm_num)]
    norm_num
  have hpb : CoffeeUtils.parseComplexSetting ((10 : ℕ) : ℚ) complexMaxSetting
      = some (2, 0, 0, ((200 : ℤ) : ℚ)) := by
    rw [show complexMaxSetting
        = JsValue.str (intToChars 2 ++ '.' :: (intToChars 0 ++ '.' :: intToChars 0)) from rfl,
      parse_out3 10 2 0 0 (by norm_num) (by norm_num) (by norm_num)]
    norm_num
  refine ⟨by decide, by decide, ?_, ?_⟩
  · exact mapMicronsToSetting_monotone.1 300 600 400 500 10 (.num 10) (.num 20) 10 20
      (by norm_num) (by norm_num [settingToNum]) (by norm_num [settingToNum])
      (by norm_num) (by norm_num)
  · exact mapMicronsToSetting_monotone.2 300 600 400 500 10 complexMinSetting
      complexMaxSetting 1 0 0 2 0 0 100 200 (by norm_num) (by norm_num) hpa hpb
      (by norm_num) (by norm_num) (Or.inl (by decide)) (by norm_num)
